import Mathlib

/-!
Verification of the agora HTTP/1.1 reverse proxy (crates agora-http-parser and
agora-proxy) against its natural-language specification.

Rust byte slices (`&[u8]`, `Vec<u8>`) are modelled as `List Nat`; Rust `String`
and `&str` values are modelled as the list of their UTF-8 bytes.  Fallible Rust
functions returning `Result<_, HTTPParseError>` are modelled with an explicit
outcome type that also records the possibility of a Rust panic (an
out-of-bounds slice index), so that totality claims are meaningful.
Loops are modelled by structural recursion, using an explicit fuel argument
equal to a bound derived from the input length whenever the Rust loop's
variant is not a direct structural argument; each such fuel bound is
commented at the definition.
-/

/-! ## Byte scanners (agora-http-parser/src/lib.rs, lines 301-325) -/

/-- Index of the first space byte (0x20), if any.  Helper describing the loop
counter of `parse_until_space`. -/
def findSpace : List Nat → Option Nat
  | [] => none
  | b :: rest => if b = 32 then some 0 else (findSpace rest).map (· + 1)

/-- Index of the first CRLF pair, if any: the loop of `parse_until_crlf`
checks `buf[i..i+2] == CRLF` only while `i < buf.len() - 1`, i.e. both bytes
must lie inside the buffer. -/
def findCrlf : List Nat → Option Nat
  | [] => none
  | [_] => none
  | a :: b :: rest =>
      if a = 13 ∧ b = 10 then some 0 else (findCrlf (b :: rest)).map (· + 1)

/-- Model of `parse_until_space`: longest strict prefix before the first
space; the empty list when no space occurs. -/
def parse_until_space (buf : List Nat) : List Nat :=
  match findSpace buf with
  | some i => buf.take i
  | none => []

/-- Model of `parse_until_crlf`: prefix before the first CRLF; empty when no
CRLF occurs. -/
def parse_until_crlf (buf : List Nat) : List Nat :=
  match findCrlf buf with
  | some i => buf.take i
  | none => []

/-- Model of `is_terminated`: the buffer contains the four-byte sequence
CR LF CR LF somewhere (`buf.windows(4).any(..)` in the source). -/
def is_terminated : List Nat → Bool
  | 13 :: 10 :: 13 :: 10 :: _ => true
  | _ :: rest => is_terminated rest
  | [] => false

/-- Index of the last colon byte (0x3a) in the list, if any.  The loop of
`parse_header` keeps overwriting `separator_index` at every colon it sees
before the first CRLF, so the colon used is the last one before that CRLF. -/
def lastColon : List Nat → Option Nat
  | [] => none
  | b :: rest =>
      match lastColon rest with
      | some i => some (i + 1)
      | none => if b = 58 then some 0 else none

/-! ## UTF-8 validity (model of `str::from_utf8(..).is_ok()`) -/

/-- A UTF-8 continuation byte. -/
def contByte (b : Nat) : Bool := 128 ≤ b && b ≤ 191

/-- Byte length of one valid UTF-8 character (RFC 3629) at the head of the
list, or `none` when the head is not a valid character encoding. -/
def utf8CharLen : List Nat → Option Nat
  | [] => none
  | b :: rest =>
      if b < 128 then some 1
      else if 194 ≤ b ∧ b ≤ 223 then
        match rest with
        | b2 :: _ => if contByte b2 then some 2 else none
        | [] => none
      else if b = 224 then
        match rest with
        | b2 :: b3 :: _ =>
            if (160 ≤ b2 ∧ b2 ≤ 191) ∧ contByte b3 then some 3 else none
        | _ => none
      else if 225 ≤ b ∧ b ≤ 236 then
        match rest with
        | b2 :: b3 :: _ => if contByte b2 ∧ contByte b3 then some 3 else none
        | _ => none
      else if b = 237 then
        match rest with
        | b2 :: b3 :: _ =>
            if (128 ≤ b2 ∧ b2 ≤ 159) ∧ contByte b3 then some 3 else none
        | _ => none
      else if 238 ≤ b ∧ b ≤ 239 then
        match rest with
        | b2 :: b3 :: _ => if contByte b2 ∧ contByte b3 then some 3 else none
        | _ => none
      else if b = 240 then
        match rest with
        | b2 :: b3 :: b4 :: _ =>
            if (144 ≤ b2 ∧ b2 ≤ 191) ∧ contByte b3 ∧ contByte b4 then some 4
            else none
        | _ => none
      else if 241 ≤ b ∧ b ≤ 243 then
        match rest with
        | b2 :: b3 :: b4 :: _ =>
            if contByte b2 ∧ contByte b3 ∧ contByte b4 then some 4 else none
        | _ => none
      else if b = 244 then
        match rest with
        | b2 :: b3 :: b4 :: _ =>
            if (128 ≤ b2 ∧ b2 ≤ 143) ∧ contByte b3 ∧ contByte b4 then some 4
            else none
        | _ => none
      else none

/-- Fuelled UTF-8 validation loop; the fuel is the list length, which
suffices because every character consumes at least one byte. -/
def utf8ValidF : Nat → List Nat → Bool
  | _, [] => true
  | 0, _ :: _ => false
  | f + 1, l =>
      match utf8CharLen l with
      | some k => utf8ValidF f (l.drop k)
      | none => false

/-- Standard UTF-8 validation (RFC 3629), the success condition of
`str::from_utf8`. -/
def utf8Valid (l : List Nat) : Bool := utf8ValidF l.length l

/-! ## Whitespace trimming (model of Rust `str::trim`)

`str::trim` strips Unicode `White_Space` characters from both ends.  On the
byte level (UTF-8 is self-synchronizing, and trim is only ever applied to
byte lists that passed `utf8Valid`) this is exactly stripping the UTF-8
encodings of the White_Space code points: U+0009..U+000D, U+0020, U+0085,
U+00A0, U+1680, U+2000..U+200A, U+2028, U+2029, U+202F, U+205F, U+3000. -/

/-- Byte length of a leading White_Space character encoding, if the list
starts with one. -/
def wsLen : List Nat → Option Nat
  | 9 :: _ => some 1
  | 10 :: _ => some 1
  | 11 :: _ => some 1
  | 12 :: _ => some 1
  | 13 :: _ => some 1
  | 32 :: _ => some 1
  | 194 :: b :: _ => if b = 133 ∨ b = 160 then some 2 else none
  | 225 :: 154 :: 128 :: _ => some 3
  | 226 :: 128 :: b :: _ =>
      if (128 ≤ b ∧ b ≤ 138) ∨ b = 168 ∨ b = 169 ∨ b = 175 then some 3 else none
  | 226 :: 129 :: 159 :: _ => some 3
  | 227 :: 128 :: 128 :: _ => some 3
  | _ => none

/-- Byte length of a trailing White_Space character encoding, read off the
reversed list (patterns are the reversed encodings). -/
def wsLenRev : List Nat → Option Nat
  | 9 :: _ => some 1
  | 10 :: _ => some 1
  | 11 :: _ => some 1
  | 12 :: _ => some 1
  | 13 :: _ => some 1
  | 32 :: _ => some 1
  | 133 :: 194 :: _ => some 2
  | 160 :: 194 :: _ => some 2
  | 128 :: 154 :: 225 :: _ => some 3
  | 159 :: 129 :: 226 :: _ => some 3
  | 128 :: 128 :: 227 :: _ => some 3
  | b :: 128 :: 226 :: _ =>
      if (128 ≤ b ∧ b ≤ 138) ∨ b = 168 ∨ b = 169 ∨ b = 175 then some 3 else none
  | _ => none

/-- Strip leading whitespace characters; the fuel is the list length, which
suffices because every step removes at least one byte. -/
def trimLeftF : Nat → List Nat → List Nat
  | 0, l => l
  | f + 1, l =>
      match wsLen l with
      | some k => trimLeftF f (l.drop k)
      | none => l

/-- Strip trailing whitespace characters from the reversed list. -/
def trimRightF : Nat → List Nat → List Nat
  | 0, l => l
  | f + 1, l =>
      match wsLenRev l with
      | some k => trimRightF f (l.drop k)
      | none => l

/-- Model of Rust `str::trim` on the UTF-8 byte list of a valid string. -/
def rustTrim (l : List Nat) : List Nat :=
  let l1 := trimLeftF l.length l
  ((trimRightF l1.length l1.reverse).reverse)

/-- Model of `str::to_lowercase` restricted to its ASCII action
(`A`-`Z` map to `a`-`z`).  In `proxy_body` the lowercased string is only
compared, after comma-splitting and trimming, against the ASCII literal
"chunked", for which the ASCII action is the relevant part. -/
def asciiLower (l : List Nat) : List Nat :=
  l.map (fun b => if 65 ≤ b ∧ b ≤ 90 then b + 32 else b)

/-! ## Data model (agora-http-parser/src/lib.rs, lines 10-49 and 159-164) -/

inductive HTTPVersion where
  | HTTP1_1
  | HTTP2
  | HTTP3
deriving DecidableEq

inductive HTTPMethod where
  | GET
  | POST
  | PUT
  | PATCH
  | DELETE
  | HEAD
  | CONNECT
  | OPTIONS
  | TRACE
deriving DecidableEq

inductive HTTPParseError where
  | UnterminatedHeader
  | InvalidMethod
  | InvalidVersion
  | InvalidHeader
  | InvalidPath
  | InvalidStatusCode
deriving DecidableEq

/-- Headers is `HashMap<String, String>`; modelled as an association list of
(key bytes, value bytes) with distinct keys, in some iteration order. -/
abbrev Headers := List (List Nat × List Nat)

/-- Model of `HashMap::insert`: overwrite the value when the key is present,
otherwise add the binding. -/
def hmInsert (m : Headers) (k v : List Nat) : Headers :=
  if m.any (fun p => p.1 = k) then
    m.map (fun p => if p.1 = k then (k, v) else p)
  else m ++ [(k, v)]

/-- Model of `HashMap::get`: the value of the (unique) binding of `k`. -/
def hmGet (m : Headers) (k : List Nat) : Option (List Nat) :=
  match m with
  | [] => none
  | p :: rest => if p.1 = k then some p.2 else hmGet rest k

structure Request where
  path : List Nat
  method : HTTPMethod
  headers : Headers
  version : HTTPVersion
deriving DecidableEq

/-- Response stores the numeric status code of the `http::StatusCode`. -/
structure Response where
  status : Nat
  version : HTTPVersion
  headers : Headers
deriving DecidableEq

/-- Outcome of a Rust function returning `Result<A, HTTPParseError>`:
either a value, a parse error, or a panic (an out-of-bounds slice index). -/
inductive RResult (α : Type) where
  | ok (a : α)
  | error (e : HTTPParseError)
  | panics
deriving DecidableEq

/-- Model of the Rust slice expression `&buf[k..]`, which panics when
`k > buf.len()`. -/
def sliceFrom (buf : List Nat) (k : Nat) : Option (List Nat) :=
  if k ≤ buf.length then some (buf.drop k) else none

/-- Model of the Rust slice expression `&buf[a..b]`, which panics unless
`a ≤ b ≤ buf.len()`. -/
def sliceRange (buf : List Nat) (a b : Nat) : Option (List Nat) :=
  if a ≤ b ∧ b ≤ buf.length then some ((buf.take b).drop a) else none

/-! ## Byte-list constants (UTF-8 bytes of the string literals involved) -/

/-- Bytes of "content-length". -/
def bContentLength : List Nat :=
  [99, 111, 110, 116, 101, 110, 116, 45, 108, 101, 110, 103, 116, 104]

/-- Bytes of "transfer-encoding". -/
def bTransferEncoding : List Nat :=
  [116, 114, 97, 110, 115, 102, 101, 114, 45, 101, 110, 99, 111, 100, 105, 110, 103]

/-- Bytes of "x-forwarded-for", the value of `"X-Forwarded-For".to_lowercase()`. -/
def bXForwardedFor : List Nat :=
  [120, 45, 102, 111, 114, 119, 97, 114, 100, 101, 100, 45, 102, 111, 114]

/-- Bytes of "Connection". -/
def bConnection : List Nat := [67, 111, 110, 110, 101, 99, 116, 105, 111, 110]

/-- Bytes of "close". -/
def bClose : List Nat := [99, 108, 111, 115, 101]

/-- Bytes of "chunked". -/
def bChunked : List Nat := [99, 104, 117, 110, 107, 101, 100]

/-- Debug form of an `HTTPMethod` (`{:?}` in `into_bytes`), and at the same
time the byte form matched by `TryFrom<&[u8]> for HTTPMethod`. -/
def methodBytes : HTTPMethod → List Nat
  | .GET => [71, 69, 84]
  | .POST => [80, 79, 83, 84]
  | .PUT => [80, 85, 84]
  | .PATCH => [80, 65, 84, 67, 72]
  | .DELETE => [68, 69, 76, 69, 84, 69]
  | .HEAD => [72, 69, 65, 68]
  | .CONNECT => [67, 79, 78, 78, 69, 67, 84]
  | .OPTIONS => [79, 80, 84, 73, 79, 78, 83]
  | .TRACE => [84, 82, 65, 67, 69]

/-- Display form of an `HTTPVersion` ("HTTP/1.1", "HTTP/2", "HTTP/3"), and
the byte form matched by `TryFrom<&[u8]> for HTTPVersion`. -/
def versionBytes : HTTPVersion → List Nat
  | .HTTP1_1 => [72, 84, 84, 80, 47, 49, 46, 49]
  | .HTTP2 => [72, 84, 84, 80, 47, 50]
  | .HTTP3 => [72, 84, 84, 80, 47, 51]

/-- Model of `TryFrom<&[u8]> for HTTPMethod` (lines 327-344). -/
def methodFromBytes (b : List Nat) : RResult HTTPMethod :=
  if b = methodBytes .GET then .ok .GET
  else if b = methodBytes .PUT then .ok .PUT
  else if b = methodBytes .POST then .ok .POST
  else if b = methodBytes .DELETE then .ok .DELETE
  else if b = methodBytes .HEAD then .ok .HEAD
  else if b = methodBytes .PATCH then .ok .PATCH
  else if b = methodBytes .TRACE then .ok .TRACE
  else if b = methodBytes .OPTIONS then .ok .OPTIONS
  else if b = methodBytes .CONNECT then .ok .CONNECT
  else .error .InvalidMethod

/-- Model of `TryFrom<&[u8]> for HTTPVersion` (lines 346-357). -/
def versionFromBytes (b : List Nat) : RResult HTTPVersion :=
  if b = versionBytes .HTTP1_1 then .ok .HTTP1_1
  else if b = versionBytes .HTTP2 then .ok .HTTP2
  else if b = versionBytes .HTTP3 then .ok .HTTP3
  else .error .InvalidVersion

/-- Model of `http::StatusCode::from_bytes`: exactly three ASCII digits with
a nonzero leading digit, i.e. a value in 100..=999. -/
def statusFromBytes (b : List Nat) : Option Nat :=
  match b with
  | [d1, d2, d3] =>
      if 49 ≤ d1 ∧ d1 ≤ 57 ∧ 48 ≤ d2 ∧ d2 ≤ 57 ∧ 48 ≤ d3 ∧ d3 ≤ 57 then
        some ((d1 - 48) * 100 + (d2 - 48) * 10 + (d3 - 48))
      else none
  | _ => none

/-! ## Header block parser (lines 250-299) -/

/-- Model of `parse_header` (lines 275-299).  The Rust loop scans forward
remembering the last colon index, and returns at the first CRLF: key = bytes
before that colon, value = trimmed bytes between colon and CRLF, rest = bytes
after the CRLF.  No CRLF in the whole buffer, or no colon before the first
CRLF, is `UnterminatedHeader`; a key or value that is not valid UTF-8 is
`InvalidHeader`.  On the empty buffer the Rust loop bound `0..buf.len()-1`
underflows and the function panics; callers always pass `buf.len() >= 2`. -/
def parse_header (buf : List Nat) : RResult (List Nat × List Nat × List Nat) :=
  match buf with
  | [] => .panics
  | _ :: _ =>
    match findCrlf buf with
    | none => .error .UnterminatedHeader
    | some j =>
      match lastColon (buf.take j) with
      | none => .error .UnterminatedHeader
      | some s =>
        match sliceRange buf 0 s, sliceRange buf (s + 1) j, sliceFrom buf (j + 2) with
        | some key, some value, some rest =>
            if utf8Valid key then
              if utf8Valid value then .ok (key, rustTrim value, rest)
              else .error .InvalidHeader
            else .error .InvalidHeader
        | _, _, _ => .panics

/-- Loop of `parse_headers` (lines 252-273).  The fuel starts at
`buf.length + 1`; every iteration consumes at least two bytes of `buf`, so
the fuel is never exhausted (the fuel-out branch is unreachable). -/
def parseHeadersGo : Nat → List Nat → Headers → RResult (Headers × List Nat)
  | 0, _, _ => .error .UnterminatedHeader
  | f + 1, buf, acc =>
      if 2 ≤ buf.length ∧ buf.take 2 ≠ [13, 10] then
        match parse_header buf with
        | .panics => .panics
        | .error e => .error e
        | .ok (k, v, rest) => parseHeadersGo f rest (hmInsert acc k v)
      else if buf.length < 2 then .error .UnterminatedHeader
      else
        match sliceFrom buf 2 with
        | none => .panics
        | some rest => .ok (acc, rest)

/-- Model of `parse_headers` (lines 252-273). -/
def parse_headers (buf : List Nat) : RResult (Headers × List Nat) :=
  parseHeadersGo (buf.length + 1) buf []

/-! ## Request parser (lines 105-157) -/

/-- Model of `Request::parse_method` (lines 135-138): `try_into` runs first
(so an error short-circuits), then the slice `&buf[method.len() + 1..]`. -/
def Request.parse_method (buf : List Nat) : RResult (HTTPMethod × List Nat) :=
  match methodFromBytes (parse_until_space buf) with
  | .error e => .error e
  | .panics => .panics
  | .ok m =>
      match sliceFrom buf ((parse_until_space buf).length + 1) with
      | none => .panics
      | some rest => .ok (m, rest)

/-- Model of `parse_path` (lines 236-248): UTF-8 check, then reject an empty
path or one not starting with '/' (byte 47), then `&buf[path.len() + 1..]`. -/
def parse_path (buf : List Nat) : RResult (List Nat × List Nat) :=
  if utf8Valid (parse_until_space buf) then
    if parse_until_space buf = [] ∨ (parse_until_space buf).head? ≠ some 47 then
      .error .InvalidPath
    else
      match sliceFrom buf ((parse_until_space buf).length + 1) with
      | none => .panics
      | some rest => .ok (parse_until_space buf, rest)
  else .error .InvalidPath

/-- Model of `Request::parse_version` (lines 141-146): scan to CRLF,
`try_into` first, then `&buf[version.len() + 2..]` to skip the CRLF. -/
def Request.parse_version (buf : List Nat) : RResult (HTTPVersion × List Nat) :=
  match versionFromBytes (parse_until_crlf buf) with
  | .error e => .error e
  | .panics => .panics
  | .ok v =>
      match sliceFrom buf ((parse_until_crlf buf).length + 2) with
      | none => .panics
      | some rest => .ok (v, rest)

/-- Model of `Request::parse_request_line` (lines 124-132). -/
def Request.parse_request_line (buf : List Nat) :
    RResult (List Nat × HTTPMethod × HTTPVersion × List Nat) :=
  match Request.parse_method buf with
  | .error e => .error e
  | .panics => .panics
  | .ok (m, buf1) =>
      match parse_path buf1 with
      | .error e => .error e
      | .panics => .panics
      | .ok (p, buf2) =>
          match Request.parse_version buf2 with
          | .error e => .error e
          | .panics => .panics
          | .ok (v, buf3) => .ok (p, m, v, buf3)

/-- Model of `Request::parse` (lines 107-120). -/
def Request.parse (buf : List Nat) : RResult (Request × List Nat) :=
  match Request.parse_request_line buf with
  | .error e => .error e
  | .panics => .panics
  | .ok (p, m, v, buf1) =>
      match parse_headers buf1 with
      | .error e => .error e
      | .panics => .panics
      | .ok (hs, buf2) => .ok (⟨p, m, hs, v⟩, buf2)

/-- Header lines of a serialized message: for each pair, `key: value CRLF`
in map iteration order. -/
def headerLines (hs : Headers) : List Nat :=
  hs.foldr (fun p acc => p.1 ++ 58 :: 32 :: p.2 ++ 13 :: 10 :: acc) []

/-- Model of `Request::into_bytes` (lines 148-156):
`METHOD SP path SP version CRLF headers CRLF`. -/
def Request.into_bytes (r : Request) : List Nat :=
  methodBytes r.method ++ 32 :: r.path ++ 32 :: versionBytes r.version
    ++ 13 :: 10 :: headerLines r.headers ++ [13, 10]

/-! ## Response parser and serializer (lines 166-233) -/

/-- Model of `Response::new` (lines 167-173): hardcoded HTTP/1.1, no headers. -/
def Response.new (status : Nat) : Response :=
  ⟨status, .HTTP1_1, []⟩

/-- Model of `Response::parse_version` (lines 201-205): scan to a space. -/
def Response.parse_version (buf : List Nat) : RResult (HTTPVersion × List Nat) :=
  match versionFromBytes (parse_until_space buf) with
  | .error e => .error e
  | .panics => .panics
  | .ok v =>
      match sliceFrom buf ((parse_until_space buf).length + 1) with
      | none => .panics
      | some rest => .ok (v, rest)

/-- Model of `Response::parse_status` (lines 207-213). -/
def Response.parse_status (buf : List Nat) : RResult (Nat × List Nat) :=
  match statusFromBytes (parse_until_space buf) with
  | none => .error .InvalidStatusCode
  | some c =>
      match sliceFrom buf ((parse_until_space buf).length + 1) with
      | none => .panics
      | some rest => .ok (c, rest)

/-- Model of `Response::parse_status_line` (lines 189-198).  The reason
phrase is scanned with `parse_until_crlf` and discarded; the subsequent
slice `&buf[reason.len() + 2..]` is taken unconditionally, and panics when
fewer than `reason.len() + 2` bytes remain (which happens exactly when no
CRLF follows and the remainder is shorter than 2 bytes). -/
def Response.parse_status_line (buf : List Nat) :
    RResult (HTTPVersion × Nat × List Nat) :=
  match Response.parse_version buf with
  | .error e => .error e
  | .panics => .panics
  | .ok (v, buf1) =>
      match Response.parse_status buf1 with
      | .error e => .error e
      | .panics => .panics
      | .ok (c, buf2) =>
          match sliceFrom buf2 ((parse_until_crlf buf2).length + 2) with
          | none => .panics
          | some rest => .ok (v, c, rest)

/-- Model of `Response::parse` (lines 175-187). -/
def Response.parse (buf : List Nat) : RResult (Response × List Nat) :=
  match Response.parse_status_line buf with
  | .error e => .error e
  | .panics => .panics
  | .ok (v, c, buf1) =>
      match parse_headers buf1 with
      | .error e => .error e
      | .panics => .panics
      | .ok (hs, buf2) => .ok (⟨c, v, hs⟩, buf2)

/-- Model of `Response::header` (lines 215-217). -/
def Response.header (r : Response) (k v : List Nat) : Response :=
  { r with headers := hmInsert r.headers k v }

/-- Decimal digits of a number, as ASCII bytes (the `{}` display of
`status.as_u16()`).  Fuel n suffices: the value shrinks by a factor 10
each step. -/
def natDecimalF : Nat → Nat → List Nat
  | 0, n => [48 + n % 10]
  | f + 1, n => if n < 10 then [48 + n] else natDecimalF f (n / 10) ++ [48 + n % 10]

/-- ASCII decimal representation of a natural number. -/
def natDecimal (n : Nat) : List Nat := natDecimalF n n

/-- Model of `http::StatusCode::canonical_reason`, restricted to the status
codes this program constructs responses from (the `http` crate carries the
full IANA table; only these entries are reachable here). -/
def canonicalReason (c : Nat) : Option (List Nat) :=
  if c = 200 then some [79, 75]
  else if c = 400 then some [66, 97, 100, 32, 82, 101, 113, 117, 101, 115, 116]
  else if c = 404 then some [78, 111, 116, 32, 70, 111, 117, 110, 100]
  else if c = 431 then
    some [82, 101, 113, 117, 101, 115, 116, 32, 72, 101, 97, 100, 101, 114, 32,
      70, 105, 101, 108, 100, 115, 32, 84, 111, 111, 32, 76, 97, 114, 103, 101]
  else if c = 502 then some [66, 97, 100, 32, 71, 97, 116, 101, 119, 97, 121]
  else if c = 505 then
    some [72, 84, 84, 80, 32, 86, 101, 114, 115, 105, 111, 110, 32, 78, 111,
      116, 32, 83, 117, 112, 112, 111, 114, 116, 101, 100]
  else none

/-- Bytes of "Unknown Reason", the `unwrap_or` fallback. -/
def bUnknownReason : List Nat :=
  [85, 110, 107, 110, 111, 119, 110, 32, 82, 101, 97, 115, 111, 110]

/-- Model of `Response::into_bytes` (lines 219-233):
`version SP code SP canonical-reason CRLF headers CRLF`. -/
def Response.into_bytes (r : Response) : List Nat :=
  versionBytes r.version ++ 32 :: natDecimal r.status ++ 32 ::
    ((canonicalReason r.status).getD bUnknownReason)
    ++ 13 :: 10 :: headerLines r.headers ++ [13, 10]

/-! ## Proxy server model (agora-proxy/src/server.rs) -/

/-- Route table entry (lines 18-22).  The `strip` field models the source
field `strip_` followed by `prefix`. -/
structure ProxyEntry where
  addr : List Nat
  strip : Bool
deriving DecidableEq

/-- Error kinds of `std::io::ErrorKind` that `server.rs` constructs or
inspects. -/
inductive IOErrorKind where
  | InvalidData
  | UnexpectedEof
  | OutOfMemory
  | Other
deriving DecidableEq

/-- Model of Rust `String::replace(pat, "")` on byte lists: every
non-overlapping occurrence of `pat`, scanning left to right, is removed.
For the empty pattern `replace` inserts the (empty) replacement at every
character boundary, leaving the string unchanged.  Fuel `s.length + 1`
suffices: every step consumes at least one byte of `s`. -/
def replaceAllF (pat : List Nat) : Nat → List Nat → List Nat
  | 0, s => s
  | f + 1, s =>
      if pat.isPrefixOf s then replaceAllF pat f (s.drop pat.length)
      else
        match s with
        | [] => []
        | c :: rest => c :: replaceAllF pat f rest

/-- Rust `s.replace(pat, "")`. -/
def replaceAll (s pat : List Nat) : List Nat :=
  if pat = [] then s else replaceAllF pat (s.length + 1) s

/-- Path rewrite applied when the matched entry has its strip flag set
(lines 124-129): `request.path = request.path.replace(&prx, "")`, then
prepend '/' (byte 47) when the result does not start with '/'. -/
def stripTransform (prx path : List Nat) : List Nat :=
  let p := replaceAll path prx
  if p.head? = some 47 then p else 47 :: p

/-- Routing decision of `Server::process` (lines 106-161). -/
inductive RouteDecision where
  | forward (entry : ProxyEntry) (newPath : List Nat)
  | notFound
deriving DecidableEq

/-- Model of the route selection of `Server::process` (lines 106-161):
iterate over `config.reverse_proxy_mapping` — a `HashMap`, whose iteration
sequence is passed here as the list `routes` — and take the first entry whose
key is a string prefix of the request path (`request.path.starts_with`);
apply the path rewrite when the entry's strip flag is set; with no matching
entry the request is answered with 404 (`proxied_request` stays false). -/
def routeRequest (routes : List (List Nat × ProxyEntry)) (path : List Nat) :
    RouteDecision :=
  match routes.find? (fun p => p.1.isPrefixOf path) with
  | some (prx, e) => .forward e (if e.strip then stripTransform prx path else path)
  | none => .notFound

/-- Model of `close_connection_with_reason` (lines 165-175): the response
written to the client is `Response::new(status)` with a single added header
`Connection: close`. -/
def closeResponse (status : Nat) : Response :=
  (Response.new status).header bConnection bClose

/-- Status code chosen by `Server::process` (lines 131-145) when
`proxy_request` fails: `InvalidData` maps to 400 Bad Request, every other
error kind to 502 Bad Gateway. -/
def proxyRequestErrorStatus : IOErrorKind → Nat
  | .InvalidData => 400
  | _ => 502

/-- Comma splitting of Rust `str::split(",")` (empty pieces kept). -/
def splitCommaGo (cur : List Nat) : List Nat → List (List Nat)
  | [] => [cur.reverse]
  | 44 :: rest => cur.reverse :: splitCommaGo [] rest
  | b :: rest => splitCommaGo (b :: cur) rest

/-- Rust `s.split(",")` as a list of pieces. -/
def splitComma (l : List Nat) : List (List Nat) := splitCommaGo [] l

/-- Chunked test of `proxy_body` (lines 281-286):
`transfer_encoding.to_lowercase().split(",").any(|v| v.trim() == "chunked")`. -/
def isChunkedValue (v : List Nat) : Bool :=
  (splitComma (asciiLower v)).any (fun part => rustTrim part = bChunked)

/-- Chunked relay loop of `proxy_body` (lines 289-320).  The sender stream
is modelled as the list of successful reads (each nonempty, at most 4093
bytes); an exhausted list models a read returning `Ok(0)`.  The loop state
is the first three buffer bytes (initially zero): after reading a chunk the
chunk is written through, the carry becomes the last three bytes of
`carry ++ chunk` (the source copies `buf[bytes_read..bytes_read+3]` to the
front), and the loop stops when `carry' ++ chunk` contains CRLFCRLF. -/
def relayChunked (carry : List Nat) (chunks : List (List Nat))
    (written : List Nat) : Except IOErrorKind Unit × List Nat :=
  match chunks with
  | [] => (.error .UnexpectedEof, written)
  | c :: rest =>
      let carry2 := (carry ++ c).drop c.length
      if is_terminated (carry2 ++ c) then (.ok (), written ++ c)
      else relayChunked carry2 rest (written ++ c)

/-- Content-length relay loop of `proxy_body` (lines 323-346): starting from
`bytes_written = remaining_bytes.len()`, keep reading and forwarding chunks
while `bytes_written < length`; an exhausted stream is `UnexpectedEof`. -/
def relayContentLength (length sent : Nat) (chunks : List (List Nat))
    (written : List Nat) : Except IOErrorKind Unit × List Nat :=
  if sent < length then
    match chunks with
    | [] => (.error .UnexpectedEof, written)
    | c :: rest => relayContentLength length (sent + c.length) rest (written ++ c)
  else (.ok (), written)

/-- Model of `usize::from_str` as used for `Content-Length` (line 326): an
optional leading '+', then one or more ASCII digits, value below 2^64. -/
def parseUsize (s : List Nat) : Option Nat :=
  match (match s with | 43 :: rest => rest | _ => s) with
  | [] => none
  | ds =>
      if ds.all (fun b => 48 ≤ b ∧ b ≤ 57) then
        let v := ds.foldl (fun acc b => acc * 10 + (b - 48)) 0
        if v < 18446744073709551616 then some v else none
      else none

/-- Model of `ProxyConnection::proxy_body` (lines 260-349).  The direction
argument of the source only selects which socket is the sender and which the
receiver; the model takes the sender's successful reads as `chunks` and
returns the relay outcome together with the bytes written to the receiver.
With both framing headers present the message is rejected before anything is
relayed; with `transfer-encoding` containing `chunked` and the residual bytes
not already terminated, the chunked loop runs; with a `content-length`, the
counting loop runs; with neither header nothing is relayed. -/
def proxy_body (headers : Headers) (remaining : List Nat)
    (chunks : List (List Nat)) : Except IOErrorKind Unit × List Nat :=
  match hmGet headers bContentLength, hmGet headers bTransferEncoding with
  | some _, some _ => (.error .InvalidData, [])
  | none, some te =>
      if isChunkedValue te ∧ ¬ is_terminated remaining then
        relayChunked [0, 0, 0] chunks []
      else (.ok (), [])
  | some cl, none =>
      match parseUsize cl with
      | none => (.error .InvalidData, [])
      | some len => relayContentLength len remaining.length chunks []
  | none, none => (.ok (), [])

/-- Model of `ProxyConnection::proxy_request` (lines 351-377): when the
client's peer address is available, insert
`x-forwarded-for: <addr>` (the key is `"X-Forwarded-For".to_lowercase()`),
then write the serialized request followed by the residual bytes to the
backend, then relay the body.  Returns the relay outcome and all bytes
written to the backend. -/
def proxy_request (clientAddr : Option (List Nat)) (r : Request)
    (remaining : List Nat) (chunks : List (List Nat)) :
    Except IOErrorKind Unit × List Nat :=
  let r2 := match clientAddr with
    | some a => { r with headers := hmInsert r.headers bXForwardedFor a }
    | none => r
  let rel := proxy_body r2.headers remaining chunks
  (rel.1, (r2.into_bytes ++ remaining) ++ rel.2)

/-- Client-visible write behaviour of `ProxyConnection::proxy_response`
(lines 379-395), parameterized by the already-parsed backend response and
residual bytes (the result of `read_response`) and by the backend's
subsequent reads: the serialized response plus the residual bytes are
written to the client, then the body relay runs. -/
def proxy_response_writes (resp : Response) (remaining : List Nat)
    (chunks : List (List Nat)) : Except IOErrorKind Unit × List Nat :=
  let rel := proxy_body resp.headers remaining chunks
  (rel.1, (resp.into_bytes ++ remaining) ++ rel.2)

/-! ## Settled claims: concrete evaluations (C1, C2, C3, C5, C7) -/

/-- C1: the route table of `ServerConfig` is a `HashMap` and
`Server::process` iterates it in the map's unspecified order, so the
configured order of `{"/api": A, "/": B}` does not determine precedence.
Both lists below enumerate that same two-entry map; under the first
iteration order a request for path "/api/v1" is forwarded to the "/" entry's
backend B, under the second to the "/api" entry's backend A — contradicting
the claim that the "/api" entry (configured first) always wins.  A request
matching no entry still yields the 404 decision. -/
theorem c1_route_order_not_configured :
    routeRequest [([47], ⟨[66], false⟩), ([47, 97, 112, 105], ⟨[65], false⟩)]
      [47, 97, 112, 105, 47, 118, 49]
      = .forward ⟨[66], false⟩ [47, 97, 112, 105, 47, 118, 49] ∧
    routeRequest [([47, 97, 112, 105], ⟨[65], false⟩), ([47], ⟨[66], false⟩)]
      [47, 97, 112, 105, 47, 118, 49]
      = .forward ⟨[65], false⟩ [47, 97, 112, 105, 47, 118, 49] ∧
    routeRequest [([47, 120], ⟨[65], false⟩)] [47, 97, 112, 105, 47, 118, 49]
      = .notFound := by
  refine ⟨by decide, by decide, by decide⟩

/-- C2: header keys are NOT lowercased by the parser.  Parsing the request
"GET / HTTP/1.1\r\nContent-Length: 5\r\nTransfer-Encoding: chunked\r\n\r\n"
stores the keys verbatim as "Content-Length" and "Transfer-Encoding", and
the lowercase lookups that `proxy_body` performs (`content-length`,
`transfer-encoding`) both miss. -/
theorem c2_header_keys_not_lowercased :
    Request.parse [71, 69, 84, 32, 47, 32, 72, 84, 84, 80, 47, 49, 46, 49, 13,
        10, 67, 111, 110, 116, 101, 110, 116, 45, 76, 101, 110, 103, 116, 104,
        58, 32, 53, 13, 10, 84, 114, 97, 110, 115, 102, 101, 114, 45, 69, 110,
        99, 111, 100, 105, 110, 103, 58, 32, 99, 104, 117, 110, 107, 101, 100,
        13, 10, 13, 10] =
      .ok (⟨[47], .GET,
        [([67, 111, 110, 116, 101, 110, 116, 45, 76, 101, 110, 103, 116, 104], [53]),
         ([84, 114, 97, 110, 115, 102, 101, 114, 45, 69, 110, 99, 111, 100,
           105, 110, 103], [99, 104, 117, 110, 107, 101, 100])],
        .HTTP1_1⟩, []) ∧
    hmGet [([67, 111, 110, 116, 101, 110, 116, 45, 76, 101, 110, 103, 116, 104], [53]),
        ([84, 114, 97, 110, 115, 102, 101, 114, 45, 69, 110, 99, 111, 100,
          105, 110, 103], [99, 104, 117, 110, 107, 101, 100])]
      bContentLength = none ∧
    hmGet [([67, 111, 110, 116, 101, 110, 116, 45, 76, 101, 110, 103, 116, 104], [53]),
        ([84, 114, 97, 110, 115, 102, 101, 114, 45, 69, 110, 99, 111, 100,
          105, 110, 103], [99, 104, 117, 110, 107, 101, 100])]
      bTransferEncoding = none := by
  refine ⟨by decide, by decide, by decide⟩

/-- C3: `Response::parse` is not total: on the input "HTTP/1.1 200 X" no
CRLF follows the status code, `parse_until_crlf` returns the empty slice,
and the unconditional slice `&buf[reason.len() + 2..]` in
`parse_status_line` indexes past the end of the one remaining byte — a
panic, not an `Ok` or an `HTTPParseError`. -/
theorem c3_response_parse_panics :
    Response.parse [72, 84, 84, 80, 47, 49, 46, 49, 32, 50, 48, 48, 32, 88]
      = .panics := by decide

/-- C5: with the strip flag set, `Server::process` rewrites the path with
`String::replace`, which removes EVERY occurrence of the matched route key,
not only the leading one: with key "/api" the path "/api/v2/api" becomes
"/v2" (the claim expects "/v2/api").  The claim's own examples
"/api/v1/x" to "/v1/x" and "/api" to "/" do hold. -/
theorem c5_strip_replaces_every_occurrence :
    stripTransform [47, 97, 112, 105] [47, 97, 112, 105, 47, 118, 50, 47, 97, 112, 105]
      = [47, 118, 50] ∧
    stripTransform [47, 97, 112, 105] [47, 97, 112, 105, 47, 118, 49, 47, 120]
      = [47, 118, 49, 47, 120] ∧
    stripTransform [47, 97, 112, 105] [47, 97, 112, 105] = [47] := by
  refine ⟨by decide, by decide, by decide⟩

/-- C7 counterexample: the 404 response built by
`close_connection_with_reason` carries exactly one header,
`Connection: close` — no `Content-Length` header under any casing — and its
wire form "HTTP/1.1 404 Not Found\r\nConnection: close\r\n\r\n" ends at the
blank line, so the body is empty: the text "Not Found" appears only as the
status line's reason phrase, contradicting the claimed `Content-Length`
header and the claimed body. -/
theorem c7_counterexample_404_without_content_length :
    (closeResponse 404).headers = [(bConnection, bClose)] ∧
    ((closeResponse 404).headers.all
      (fun p => asciiLower p.1 ≠ bContentLength)) = true ∧
    (closeResponse 404).into_bytes
      = [72, 84, 84, 80, 47, 49, 46, 49, 32, 52, 48, 52, 32, 78, 111, 116, 32,
         70, 111, 117, 110, 100, 13, 10, 67, 111, 110, 110, 101, 99, 116, 105,
         111, 110, 58, 32, 99, 108, 111, 115, 101, 13, 10, 13, 10] := by
  refine ⟨by decide, by decide, by decide⟩

/-- C7 amended: every error response the proxy sends (400, 404, 431, 502,
505) consists of the status line with the canonical reason, the single
header `Connection: close`, and an empty body; no `Content-Length` header
is included. -/
theorem c7_error_responses_connection_close_only :
    (closeResponse 400).headers = [(bConnection, bClose)] ∧
    (closeResponse 404).headers = [(bConnection, bClose)] ∧
    (closeResponse 431).headers = [(bConnection, bClose)] ∧
    (closeResponse 502).headers = [(bConnection, bClose)] ∧
    (closeResponse 505).headers = [(bConnection, bClose)] ∧
    (closeResponse 400).into_bytes
      = [72, 84, 84, 80, 47, 49, 46, 49, 32, 52, 48, 48, 32, 66, 97, 100, 32,
         82, 101, 113, 117, 101, 115, 116, 13, 10, 67, 111, 110, 110, 101, 99,
         116, 105, 111, 110, 58, 32, 99, 108, 111, 115, 101, 13, 10, 13, 10] ∧
    (closeResponse 404).into_bytes
      = [72, 84, 84, 80, 47, 49, 46, 49, 32, 52, 48, 52, 32, 78, 111, 116, 32,
         70, 111, 117, 110, 100, 13, 10, 67, 111, 110, 110, 101, 99, 116, 105,
         111, 110, 58, 32, 99, 108, 111, 115, 101, 13, 10, 13, 10] ∧
    (closeResponse 431).into_bytes
      = [72, 84, 84, 80, 47, 49, 46, 49, 32, 52, 51, 49, 32, 82, 101, 113, 117,
         101, 115, 116, 32, 72, 101, 97, 100, 101, 114, 32, 70, 105, 101, 108,
         100, 115, 32, 84, 111, 111, 32, 76, 97, 114, 103, 101, 13, 10, 67,
         111, 110, 110, 101, 99, 116, 105, 111, 110, 58, 32, 99, 108, 111, 115,
         101, 13, 10, 13, 10] ∧
    (closeResponse 502).into_bytes
      = [72, 84, 84, 80, 47, 49, 46, 49, 32, 53, 48, 50, 32, 66, 97, 100, 32,
         71, 97, 116, 101, 119, 97, 121, 13, 10, 67, 111, 110, 110, 101, 99,
         116, 105, 111, 110, 58, 32, 99, 108, 111, 115, 101, 13, 10, 13, 10] ∧
    (closeResponse 505).into_bytes
      = [72, 84, 84, 80, 47, 49, 46, 49, 32, 53, 48, 53, 32, 72, 84, 84, 80,
         32, 86, 101, 114, 115, 105, 111, 110, 32, 78, 111, 116, 32, 83, 117,
         112, 112, 111, 114, 116, 101, 100, 13, 10, 67, 111, 110, 110, 101, 99,
         116, 105, 111, 110, 58, 32, 99, 108, 111, 115, 101, 13, 10, 13, 10] := by
  refine ⟨by decide, by decide, by decide, by decide, by decide, by decide,
    by decide, by decide, by decide, by decide⟩

/-! ## Header-map lemmas -/

/-- Overwriting one key of a header map does not change lookups of other
keys (map branch of `hmInsert`). -/
theorem hmGet_map_overwrite (m : Headers) (k v k' : List Nat) (h : k' ≠ k) :
    hmGet (m.map (fun p => if p.1 = k then (k, v) else p)) k' = hmGet m k' := by
  induction m with
  | nil => rfl
  | cons p m ih =>
      have hk : ¬ (k = k') := fun hc => h hc.symm
      by_cases hp : p.1 = k
      · simp [hmGet, hp, hk, ih]
      · have hhead : ((fun q => if q.1 = k then (k, v) else q) p) = p := by simp [hp]
        simp only [List.map_cons, hhead, hmGet]
        by_cases hq : p.1 = k' <;> simp [hq, ih]

/-- Appending a binding for a fresh key does not change lookups of other
keys (append branch of `hmInsert`). -/
theorem hmGet_append_single (m : Headers) (k v k' : List Nat) (h : k' ≠ k) :
    hmGet (m ++ [(k, v)]) k' = hmGet m k' := by
  induction m with
  | nil =>
      have hk : ¬ (k = k') := fun hc => h hc.symm
      simp [hmGet, hk]
  | cons p m ih =>
      by_cases hq : p.1 = k' <;> simp [hmGet, hq, ih]

/-- Lookups of a key other than the inserted one are unchanged by
`hmInsert`. -/
theorem hmGet_hmInsert_ne (m : Headers) (k v k' : List Nat) (h : k' ≠ k) :
    hmGet (hmInsert m k v) k' = hmGet m k' := by
  unfold hmInsert
  by_cases hc : m.any (fun p => p.1 = k)
  · rw [if_pos hc]
    exact hmGet_map_overwrite m k v k' h
  · rw [if_neg hc]
    exact hmGet_append_single m k v k' h

/-! ## C4: body relay with neither framing header -/

/-- C4 counterexample: a backend response with no `content-length` and no
`transfer-encoding` header, residual byte 2 already read, and one more byte
(1) still readable from the backend before it closes.  The claimed
read-until-close behaviour would forward that byte; the code's `proxy_body`
relays nothing when neither header is present, so the client receives only
the serialized header and the residual byte — the byte 1 is never written. -/
theorem c4_counterexample_no_read_until_close :
    proxy_response_writes (Response.new 200) [2] [[1]]
      = (.ok (), [72, 84, 84, 80, 47, 49, 46, 49, 32, 50, 48, 48, 32, 79, 75,
         13, 10, 13, 10, 2]) ∧
    (1 ∈ (proxy_response_writes (Response.new 200) [2] [[1]]).2) = False := by
  constructor
  · rfl
  · simp only [eq_iff_iff, iff_false]
    intro hmem
    have : (proxy_response_writes (Response.new 200) [2] [[1]]).2
        = [72, 84, 84, 80, 47, 49, 46, 49, 32, 50, 48, 48, 32, 79, 75,
           13, 10, 13, 10, 2] := rfl
    rw [this] at hmem
    simp at hmem

/-- C4 amended: when a message carries neither a `content-length` nor a
`transfer-encoding` header, `proxy_body` relays zero additional bytes in
either direction, and on the response path the client receives exactly the
serialized response header followed by the residual bytes — no
read-until-close loop runs. -/
theorem c4_neither_header_relays_nothing :
    (∀ (headers : Headers) (remaining : List Nat) (chunks : List (List Nat)),
      hmGet headers bContentLength = none →
      hmGet headers bTransferEncoding = none →
      proxy_body headers remaining chunks = (.ok (), [])) ∧
    (∀ (resp : Response) (remaining : List Nat) (chunks : List (List Nat)),
      hmGet resp.headers bContentLength = none →
      hmGet resp.headers bTransferEncoding = none →
      proxy_response_writes resp remaining chunks
        = (.ok (), resp.into_bytes ++ remaining)) := by
  constructor
  · intro headers remaining chunks h1 h2
    simp [proxy_body, h1, h2]
  · intro resp remaining chunks h1 h2
    simp [proxy_response_writes, proxy_body, h1, h2]

/-- C4 witness: the amended statement applied at the counterexample's
concrete inputs. -/
theorem c4_witness :
    proxy_body [] [2] [[1]] = (.ok (), []) ∧
    proxy_response_writes (Response.new 200) [2] [[1]]
      = (.ok (), (Response.new 200).into_bytes ++ [2]) :=
  ⟨c4_neither_header_relays_nothing.1 [] [2] [[1]] rfl rfl,
   c4_neither_header_relays_nothing.2 (Response.new 200) [2] [[1]] rfl rfl⟩

/-! ## C8: both framing headers present -/

/-- C8: whenever both a `content-length` and a `transfer-encoding` header
are present, `proxy_body` rejects the message as malformed before relaying
anything (it returns `InvalidData` with zero body bytes written); the same
holds through `proxy_request` for any client address, and `Server::process`
maps the `InvalidData` failure of `proxy_request` to 400 Bad Request. -/
theorem c8_both_framing_headers_rejected :
    (∀ (headers : Headers) (remaining : List Nat) (chunks : List (List Nat)),
      (hmGet headers bContentLength).isSome = true →
      (hmGet headers bTransferEncoding).isSome = true →
      proxy_body headers remaining chunks = (.error .InvalidData, [])) ∧
    (∀ (ca : Option (List Nat)) (r : Request) (remaining : List Nat)
        (chunks : List (List Nat)),
      (hmGet r.headers bContentLength).isSome = true →
      (hmGet r.headers bTransferEncoding).isSome = true →
      (proxy_request ca r remaining chunks).1 = .error .InvalidData) ∧
    proxyRequestErrorStatus .InvalidData = 400 := by
  refine ⟨?_, ?_, rfl⟩
  · intro headers remaining chunks h1 h2
    obtain ⟨cl, hcl⟩ := Option.isSome_iff_exists.mp h1
    obtain ⟨te, hte⟩ := Option.isSome_iff_exists.mp h2
    simp [proxy_body, hcl, hte]
  · intro ca r remaining chunks h1 h2
    cases ca with
    | none =>
        obtain ⟨cl, hcl⟩ := Option.isSome_iff_exists.mp h1
        obtain ⟨te, hte⟩ := Option.isSome_iff_exists.mp h2
        simp [proxy_request, proxy_body, hcl, hte]
    | some a =>
        have hcl' : hmGet (hmInsert r.headers bXForwardedFor a) bContentLength
            = hmGet r.headers bContentLength :=
          hmGet_hmInsert_ne _ _ _ _ (by decide)
        have hte' : hmGet (hmInsert r.headers bXForwardedFor a) bTransferEncoding
            = hmGet r.headers bTransferEncoding :=
          hmGet_hmInsert_ne _ _ _ _ (by decide)
        obtain ⟨cl, hcl⟩ := Option.isSome_iff_exists.mp h1
        obtain ⟨te, hte⟩ := Option.isSome_iff_exists.mp h2
        simp [proxy_request, proxy_body, hcl', hte', hcl, hte]

/-- C8 witness: a request carrying `content-length: 5` and
`transfer-encoding: chunked` is rejected with `InvalidData`, which maps
to 400. -/
theorem c8_witness :
    proxy_body [(bContentLength, [53]), (bTransferEncoding, bChunked)] [] [[1]]
      = (.error .InvalidData, []) ∧
    (proxy_request (some [97])
      ⟨[47], .GET, [(bContentLength, [53]), (bTransferEncoding, bChunked)], .HTTP1_1⟩
      [] [[1]]).1 = .error .InvalidData ∧
    proxyRequestErrorStatus .InvalidData = 400 :=
  ⟨c8_both_framing_headers_rejected.1
      [(bContentLength, [53]), (bTransferEncoding, bChunked)] [] [[1]]
      (by decide) (by decide),
   c8_both_framing_headers_rejected.2.1 (some [97])
      ⟨[47], .GET, [(bContentLength, [53]), (bTransferEncoding, bChunked)], .HTTP1_1⟩
      [] [[1]] (by decide) (by decide),
   c8_both_framing_headers_rejected.2.2⟩

/-! ## Scanner bounds -/

/-- A found space index lies inside the buffer. -/
theorem findSpace_lt (l : List Nat) (i : Nat) (h : findSpace l = some i) :
    i < l.length := by
  induction l generalizing i with
  | nil => simp [findSpace] at h
  | cons b rest ih =>
      by_cases hb : b = 32
      · simp [findSpace, hb] at h
        simp [← h]
      · simp [findSpace, hb] at h
        obtain ⟨j, hj, rfl⟩ := h
        have := ih j hj
        simp
        omega

/-- A found CRLF index leaves both CRLF bytes inside the buffer. -/
theorem findCrlf_bound (l : List Nat) (j : Nat) (h : findCrlf l = some j) :
    j + 2 ≤ l.length := by
  induction l generalizing j with
  | nil => simp [findCrlf] at h
  | cons a rest ih =>
      cases rest with
      | nil => simp [findCrlf] at h
      | cons b r =>
          by_cases hab : a = 13 ∧ b = 10
          · simp [findCrlf, hab] at h
            simp [← h]
          · simp [findCrlf, hab] at h
            obtain ⟨j', hj', rfl⟩ := h
            have := ih j' hj'
            simp at this ⊢
            omega

/-- A found last-colon index lies inside the buffer. -/
theorem lastColon_lt (l : List Nat) (s : Nat) (h : lastColon l = some s) :
    s < l.length := by
  induction l generalizing s with
  | nil => simp [lastColon] at h
  | cons b rest ih =>
      simp only [lastColon] at h
      cases hr : lastColon rest with
      | some i =>
          rw [hr] at h
          obtain rfl : i + 1 = s := by simpa using h
          have := ih i hr
          simp
          omega
      | none =>
          rw [hr] at h
          by_cases hb : b = 58
          · simp [hb] at h
            simp [← h]
          · simp [hb] at h

/-- A nonempty `parse_until_space` result is followed by the space inside
the buffer. -/
theorem until_space_length (l : List Nat) (h : parse_until_space l ≠ []) :
    (parse_until_space l).length + 1 ≤ l.length := by
  unfold parse_until_space at h ⊢
  cases hf : findSpace l with
  | none => rw [hf] at h; simp at h
  | some i =>
      have := findSpace_lt l i hf
      simp
      omega

/-- A nonempty `parse_until_crlf` result is followed by the CRLF inside the
buffer. -/
theorem until_crlf_length (l : List Nat) (h : parse_until_crlf l ≠ []) :
    (parse_until_crlf l).length + 2 ≤ l.length := by
  unfold parse_until_crlf at h ⊢
  cases hf : findCrlf l with
  | none => rw [hf] at h; simp at h
  | some j =>
      have := findCrlf_bound l j hf
      simp
      omega

/-! ## C10: totality of the request parser -/

/-- Outcome class asserted by the totality claims: the parse neither panics
nor reports `InvalidStatusCode`. -/
def rrOk {α : Type} : RResult α → Bool
  | .panics => false
  | .error .InvalidStatusCode => false
  | _ => true

/-- Characterization of `rrOk` on the error constructor, independent of the
value type. -/
theorem rrOk_error_iff {α : Type} (e : HTTPParseError) :
    rrOk (@RResult.error α e) = true ↔ e ≠ .InvalidStatusCode := by
  cases e <;> simp [rrOk]

/-- Method lookup never panics and only fails with `InvalidMethod`. -/
theorem methodFromBytes_rrOk (b : List Nat) : rrOk (methodFromBytes b) = true := by
  unfold methodFromBytes
  (repeat' split) <;> rfl

/-- Version lookup never panics and only fails with `InvalidVersion`. -/
theorem versionFromBytes_rrOk (b : List Nat) : rrOk (versionFromBytes b) = true := by
  unfold versionFromBytes
  (repeat' split) <;> rfl

/-- Only a nonempty token can name a method. -/
theorem methodFromBytes_ok_ne_nil (b : List Nat) (m : HTTPMethod)
    (h : methodFromBytes b = .ok m) : b ≠ [] := by
  intro hb
  subst hb
  cases m <;> exact absurd h (by decide)

/-- Only a nonempty token can name a version. -/
theorem versionFromBytes_ok_ne_nil (b : List Nat) (v : HTTPVersion)
    (h : versionFromBytes b = .ok v) : b ≠ [] := by
  intro hb
  subst hb
  cases v <;> exact absurd h (by decide)

/-- `Request::parse_method` never panics (a successful method token is
nonempty, so the skipped space lies inside the buffer) and only fails with
`InvalidMethod`. -/
theorem parse_method_rrOk (buf : List Nat) :
    rrOk (Request.parse_method buf) = true := by
  unfold Request.parse_method
  cases hm : methodFromBytes (parse_until_space buf) with
  | error e =>
      have := methodFromBytes_rrOk (parse_until_space buf)
      rw [hm] at this
      have he := (rrOk_error_iff e).mp this
      simpa [rrOk_error_iff] using he
  | panics =>
      have := methodFromBytes_rrOk (parse_until_space buf)
      rw [hm] at this
      exact absurd this (by decide)
  | ok m =>
      have hne := methodFromBytes_ok_ne_nil _ _ hm
      have hlen := until_space_length buf hne
      simp [sliceFrom, hlen, rrOk]

/-- `parse_path` never panics and only fails with `InvalidPath`. -/
theorem parse_path_rrOk (buf : List Nat) : rrOk (parse_path buf) = true := by
  unfold parse_path
  by_cases hv : utf8Valid (parse_until_space buf) = true
  · rw [if_pos hv]
    by_cases he : parse_until_space buf = [] ∨ (parse_until_space buf).head? ≠ some 47
    · rw [if_pos he]; rfl
    · rw [if_neg he]
      push_neg at he
      have hlen := until_space_length buf he.1
      simp [sliceFrom, hlen, rrOk]
  · rw [if_neg hv]; rfl

/-- `Request::parse_version` never panics (a successful version token is
nonempty, so the skipped CRLF lies inside the buffer) and only fails with
`InvalidVersion`. -/
theorem parse_version_rq_rrOk (buf : List Nat) :
    rrOk (Request.parse_version buf) = true := by
  unfold Request.parse_version
  cases hm : versionFromBytes (parse_until_crlf buf) with
  | error e =>
      have := versionFromBytes_rrOk (parse_until_crlf buf)
      rw [hm] at this
      have he := (rrOk_error_iff e).mp this
      simpa [rrOk_error_iff] using he
  | panics =>
      have := versionFromBytes_rrOk (parse_until_crlf buf)
      rw [hm] at this
      exact absurd this (by decide)
  | ok v =>
      have hne := versionFromBytes_ok_ne_nil _ _ hm
      have hlen := until_crlf_length buf hne
      simp [sliceFrom, hlen, rrOk]

/-- `parse_header` on a buffer of at least two bytes never panics and only
fails with `UnterminatedHeader` or `InvalidHeader`: all three slices are in
bounds because the colon lies strictly before the CRLF, which lies inside
the buffer. -/
theorem parse_header_rrOk (buf : List Nat) (h2 : 2 ≤ buf.length) :
    rrOk (parse_header buf) = true := by
  cases buf with
  | nil => simp at h2
  | cons b0 rest =>
      cases hf : findCrlf (b0 :: rest) with
      | none => simp [parse_header, hf, rrOk]
      | some j =>
          have hj : j + 2 ≤ rest.length + 1 := by
            simpa using findCrlf_bound _ _ hf
          cases hc : lastColon ((b0 :: rest).take j) with
          | none => simp [parse_header, hf, hc, rrOk]
          | some s =>
              have hlen : ((b0 :: rest).take j).length = j := by
                simp
                omega
              have hs : s < j := by
                have := lastColon_lt _ _ hc
                omega
              have c1 : 0 ≤ s ∧ s ≤ (b0 :: rest).length := by
                refine ⟨Nat.zero_le _, ?_⟩
                simp
                omega
              have h1 : sliceRange (b0 :: rest) 0 s
                  = some (((b0 :: rest).take s).drop 0) := by
                unfold sliceRange
                rw [if_pos c1]
              have c2 : s + 1 ≤ j ∧ j ≤ (b0 :: rest).length := by
                refine ⟨by omega, ?_⟩
                simp
                omega
              have hx : sliceRange (b0 :: rest) (s + 1) j
                  = some (((b0 :: rest).take j).drop (s + 1)) := by
                unfold sliceRange
                rw [if_pos c2]
              have c3 : j + 2 ≤ (b0 :: rest).length := by
                simp
                omega
              have h3 : sliceFrom (b0 :: rest) (j + 2)
                  = some ((b0 :: rest).drop (j + 2)) := by
                unfold sliceFrom
                rw [if_pos c3]
              by_cases hk : utf8Valid ((b0 :: rest).take s) = true
              · by_cases hw : utf8Valid (((b0 :: rest).take j).drop (s + 1)) = true
                · simp [parse_header, hf, hc, h1, hx, h3, hk, hw, rrOk]
                · simp [parse_header, hf, hc, h1, hx, h3, hk, hw, rrOk]
              · simp [parse_header, hf, hc, h1, hx, h3, hk, rrOk]

/-- The header-block loop never panics and never reports
`InvalidStatusCode`. -/
theorem parseHeadersGo_rrOk (f : Nat) :
    ∀ (buf : List Nat) (acc : Headers), rrOk (parseHeadersGo f buf acc) = true := by
  induction f with
  | zero => intro buf acc; rfl
  | succ f ih =>
      intro buf acc
      unfold parseHeadersGo
      by_cases hg : 2 ≤ buf.length ∧ buf.take 2 ≠ [13, 10]
      · rw [if_pos hg]
        cases hp : parse_header buf with
        | panics =>
            have := parse_header_rrOk buf hg.1
            rw [hp] at this
            exact absurd this (by decide)
        | error e =>
            have := parse_header_rrOk buf hg.1
            rw [hp] at this
            have he := (rrOk_error_iff e).mp this
            simpa [rrOk_error_iff] using he
        | ok kvr =>
            obtain ⟨k, v, rest⟩ := kvr
            simpa using ih rest (hmInsert acc k v)
      · rw [if_neg hg]
        by_cases hl : buf.length < 2
        · rw [if_pos hl]; rfl
        · rw [if_neg hl]
          have hsl : sliceFrom buf 2 = some (buf.drop 2) := by
            unfold sliceFrom
            rw [if_pos (by omega : 2 ≤ buf.length)]
          simp [hsl, rrOk]

/-- C10: `Request::parse` is total.  For every input byte list it returns
`ok` or one of the parse errors other than `InvalidStatusCode` (i.e.
`UnterminatedHeader`, `InvalidMethod`, `InvalidVersion`, `InvalidHeader` or
`InvalidPath`); in particular every internal slice advance — past the space
after the method and the path, past the CRLF after the version, and within
each header line — stays in bounds, so the parser never panics. -/
theorem c10_request_parse_total (buf : List Nat) :
    rrOk (Request.parse buf) = true := by
  unfold Request.parse Request.parse_request_line
  cases hm : Request.parse_method buf with
  | panics =>
      have := parse_method_rrOk buf
      rw [hm] at this
      exact absurd this (by decide)
  | error e =>
      have := parse_method_rrOk buf
      rw [hm] at this
      have he := (rrOk_error_iff e).mp this
      simpa [hm, rrOk_error_iff] using he
  | ok mr =>
      obtain ⟨m, buf1⟩ := mr
      cases hp : parse_path buf1 with
      | panics =>
          have := parse_path_rrOk buf1
          rw [hp] at this
          exact absurd this (by decide)
      | error e =>
          have := parse_path_rrOk buf1
          rw [hp] at this
          have he := (rrOk_error_iff e).mp this
          simpa [hm, hp, rrOk_error_iff] using he
      | ok pr =>
          obtain ⟨p, buf2⟩ := pr
          cases hv : Request.parse_version buf2 with
          | panics =>
              have := parse_version_rq_rrOk buf2
              rw [hv] at this
              exact absurd this (by decide)
          | error e =>
              have := parse_version_rq_rrOk buf2
              rw [hv] at this
              have he := (rrOk_error_iff e).mp this
              simpa [hm, hp, hv, rrOk_error_iff] using he
          | ok vr =>
              obtain ⟨v, buf3⟩ := vr
              cases hh : parse_headers buf3 with
              | panics =>
                  have := parseHeadersGo_rrOk (buf3.length + 1) buf3 []
                  rw [show parseHeadersGo (buf3.length + 1) buf3 [] = RResult.panics
                    from hh] at this
                  exact absurd this (by decide)
              | error e =>
                  have := parseHeadersGo_rrOk (buf3.length + 1) buf3 []
                  rw [show parseHeadersGo (buf3.length + 1) buf3 []
                    = RResult.error e from hh] at this
                  have he := (rrOk_error_iff e).mp this
                  simpa [hm, hp, hv, hh, rrOk_error_iff] using he
              | ok hr =>
                  obtain ⟨hs, buf4⟩ := hr
                  simp [hm, hp, hv, hh, rrOk]

/-! ## C9: successful parses consume a contiguous prefix ending in CRLFCRLF -/

/-- Decomposition of a buffer at its first CRLF. -/
theorem findCrlf_decomp (l : List Nat) (j : Nat) (h : findCrlf l = some j) :
    l = l.take j ++ 13 :: 10 :: l.drop (j + 2) := by
  induction l generalizing j with
  | nil => simp [findCrlf] at h
  | cons a rest ih =>
      cases rest with
      | nil => simp [findCrlf] at h
      | cons b r =>
          by_cases hab : a = 13 ∧ b = 10
          · simp [findCrlf, hab] at h
            obtain rfl := h.symm
            simp [hab.1, hab.2]
          · simp [findCrlf, hab] at h
            obtain ⟨j', hj', rfl⟩ := h
            have := ih j' hj'
            calc a :: b :: r = a :: ((b :: r).take j' ++ 13 :: 10 :: (b :: r).drop (j' + 2)) := by
                  rw [← this]
              _ = (a :: b :: r).take (j' + 1) ++ 13 :: 10 :: (a :: b :: r).drop (j' + 1 + 2) := by
                  simp

/-- The tail of a CRLF-free buffer is CRLF-free. -/
theorem findCrlf_none_tail (l : List Nat) (h : findCrlf l = none) :
    findCrlf l.tail = none := by
  cases l with
  | nil => rfl
  | cons a rest =>
      cases rest with
      | nil => rfl
      | cons b r =>
          by_cases hab : a = 13 ∧ b = 10
          · simp [findCrlf, hab] at h
          · simp [findCrlf, hab] at h
            simpa using h

/-- Dropping bytes from a CRLF-free buffer leaves it CRLF-free. -/
theorem findCrlf_none_drop (k : Nat) (l : List Nat) (h : findCrlf l = none) :
    findCrlf (l.drop k) = none := by
  induction k generalizing l with
  | zero => simpa using h
  | succ k ih =>
      have h2 := ih l.tail (findCrlf_none_tail l h)
      have h3 : l.tail.drop k = l.drop (k + 1) := by
        rw [← List.drop_one, List.drop_drop, Nat.add_comm]
      rwa [h3] at h2

/-- A buffer whose first two bytes are CRLF starts with the explicit CRLF. -/
theorem take_two_crlf (buf : List Nat) (h : buf.take 2 = [13, 10]) :
    buf = 13 :: 10 :: buf.drop 2 := by
  cases buf with
  | nil => simp at h
  | cons a rest =>
      cases rest with
      | nil => simp at h
      | cons b r =>
          simp at h
          simp [h.1, h.2]

/-- The header-block loop cannot succeed on a CRLF-free buffer: the loop
either meets a header line (which needs a CRLF) or the terminating blank
line (which is a CRLF). -/
theorem parseHeadersGo_none_crlf (f : Nat) (buf : List Nat) (acc hs : Headers)
    (tail : List Nat) (hn : findCrlf buf = none) :
    parseHeadersGo f buf acc ≠ .ok (hs, tail) := by
  intro h
  cases f with
  | zero => simp [parseHeadersGo] at h
  | succ f =>
      unfold parseHeadersGo at h
      by_cases hg : 2 ≤ buf.length ∧ buf.take 2 ≠ [13, 10]
      · rw [if_pos hg] at h
        cases buf with
        | nil => exact absurd hg.1 (by simp)
        | cons b0 rest =>
            simp [parse_header, hn] at h
      · rw [if_neg hg] at h
        by_cases hl : buf.length < 2
        · rw [if_pos hl] at h
          exact absurd h (by simp)
        · rw [if_neg hl] at h
          push_neg at hg
          have h2 := hg (by omega)
          have := take_two_crlf buf (by simpa using h2)
          rw [this] at hn
          simp [findCrlf] at hn

/-- A successful `parse_header` consumed its line up to and including the
line's CRLF. -/
theorem parse_header_ok_decomp (buf k v rest : List Nat)
    (h : parse_header buf = .ok (k, v, rest)) :
    ∃ q, buf = q ++ 13 :: 10 :: rest := by
  cases buf with
  | nil => simp [parse_header] at h
  | cons b0 bs =>
      cases hf : findCrlf (b0 :: bs) with
      | none => simp [parse_header, hf] at h
      | some j =>
          cases hc : lastColon ((b0 :: bs).take j) with
          | none => simp [parse_header, hf, hc] at h
          | some s =>
              cases h1 : sliceRange (b0 :: bs) 0 s with
              | none => simp [parse_header, hf, hc, h1] at h
              | some key =>
                  cases h2 : sliceRange (b0 :: bs) (s + 1) j with
                  | none => simp [parse_header, hf, hc, h1, h2] at h
                  | some value =>
                      cases h3 : sliceFrom (b0 :: bs) (j + 2) with
                      | none => simp [parse_header, hf, hc, h1, h2, h3] at h
                      | some rest2 =>
                          have hrest2 : rest2 = (b0 :: bs).drop (j + 2) := by
                            unfold sliceFrom at h3
                            by_cases hb : j + 2 ≤ (b0 :: bs).length
                            · rw [if_pos hb] at h3
                              exact (Option.some_inj.mp h3).symm
                            · rw [if_neg hb] at h3
                              exact absurd h3 (by simp)
                          simp only [parse_header, hf, hc, h1, h2, h3] at h
                          by_cases hk : utf8Valid key = true
                          · by_cases hv : utf8Valid value = true
                            · rw [if_pos hk, if_pos hv] at h
                              simp at h
                              obtain ⟨-, -, hr⟩ := h
                              refine ⟨(b0 :: bs).take j, ?_⟩
                              rw [← hr, hrest2]
                              exact findCrlf_decomp _ _ hf
                            · rw [if_pos hk, if_neg hv] at h
                              simp at h
                          · rw [if_neg hk] at h
                            simp at h

/-- A successful header-block parse consumed a (possibly empty) block of
CRLF-terminated lines followed by the blank line; the prefix before the
final CRLF is empty or itself ends with a CRLF. -/
theorem parseHeadersGo_ok_decomp (f : Nat) :
    ∀ (buf : List Nat) (acc hs : Headers) (tail : List Nat),
    parseHeadersGo f buf acc = .ok (hs, tail) →
    ∃ pfx, buf = pfx ++ 13 :: 10 :: tail ∧ (pfx = [] ∨ [13, 10] <:+ pfx) := by
  induction f with
  | zero => intro buf acc hs tail h; simp [parseHeadersGo] at h
  | succ f ih =>
      intro buf acc hs tail h
      unfold parseHeadersGo at h
      by_cases hg : 2 ≤ buf.length ∧ buf.take 2 ≠ [13, 10]
      · rw [if_pos hg] at h
        cases hp : parse_header buf with
        | panics => simp [hp] at h
        | error e => simp [hp] at h
        | ok kvr =>
            obtain ⟨k, v, rest⟩ := kvr
            simp only [hp] at h
            obtain ⟨pfx, hrest, hpfx⟩ := ih rest (hmInsert acc k v) hs tail h
            obtain ⟨q, hq⟩ := parse_header_ok_decomp buf k v rest hp
            refine ⟨q ++ 13 :: 10 :: pfx, ?_, ?_⟩
            · rw [hq, hrest]
              simp
            · right
              rcases hpfx with rfl | ⟨t, ht⟩
              · exact ⟨q, by simp⟩
              · exact ⟨q ++ 13 :: 10 :: t, by rw [← ht]; simp⟩
      · rw [if_neg hg] at h
        by_cases hl : buf.length < 2
        · rw [if_pos hl] at h
          exact absurd h (by simp)
        · rw [if_neg hl] at h
          have hsl : sliceFrom buf 2 = some (buf.drop 2) := by
            unfold sliceFrom
            rw [if_pos (by omega : 2 ≤ buf.length)]
          rw [hsl] at h
          simp at h
          obtain ⟨-, hr⟩ := h
          push_neg at hg
          have h2 := hg (by omega)
          refine ⟨[], ?_, Or.inl rfl⟩
          rw [← hr]
          simpa using take_two_crlf buf (by simpa using h2)

/-- A successful checked slice equals the corresponding drop. -/
theorem sliceFrom_some_eq (l : List Nat) (k : Nat) (r : List Nat)
    (h : sliceFrom l k = some r) : r = l.drop k := by
  unfold sliceFrom at h
  by_cases hb : k ≤ l.length
  · rw [if_pos hb] at h
    exact (Option.some_inj.mp h).symm
  · rw [if_neg hb] at h
    exact absurd h (by simp)

/-- A successful checked slice splits the buffer. -/
theorem sliceFrom_some_decomp (l : List Nat) (k : Nat) (r : List Nat)
    (h : sliceFrom l k = some r) : l = l.take k ++ r := by
  rw [sliceFrom_some_eq l k r h]
  exact (List.take_append_drop k l).symm

/-- A nonempty `parse_until_crlf` result comes from a found CRLF. -/
theorem until_crlf_eq (l : List Nat) (h : parse_until_crlf l ≠ []) :
    ∃ j, findCrlf l = some j ∧ (parse_until_crlf l).length = j := by
  unfold parse_until_crlf at h ⊢
  cases hf : findCrlf l with
  | none => rw [hf] at h; simp at h
  | some j =>
      refine ⟨j, rfl, ?_⟩
      have := findCrlf_bound l j hf
      simp
      omega

/-- A successful `Request::parse_method` consumed a prefix of the buffer. -/
theorem parse_method_ok_decomp (buf : List Nat) (m : HTTPMethod) (rest : List Nat)
    (h : Request.parse_method buf = .ok (m, rest)) : ∃ c, buf = c ++ rest := by
  unfold Request.parse_method at h
  cases hm : methodFromBytes (parse_until_space buf) with
  | error e => simp [hm] at h
  | panics => simp [hm] at h
  | ok m2 =>
      simp only [hm] at h
      cases hsl : sliceFrom buf ((parse_until_space buf).length + 1) with
      | none => simp [hsl] at h
      | some r2 =>
          simp only [hsl] at h
          simp at h
          obtain ⟨-, hr⟩ := h
          exact ⟨buf.take ((parse_until_space buf).length + 1),
            by rw [← hr]; exact sliceFrom_some_decomp _ _ _ hsl⟩

/-- A successful `parse_path` consumed a prefix of the buffer. -/
theorem parse_path_ok_decomp (buf p rest : List Nat)
    (h : parse_path buf = .ok (p, rest)) : ∃ c, buf = c ++ rest := by
  unfold parse_path at h
  by_cases hv : utf8Valid (parse_until_space buf) = true
  · rw [if_pos hv] at h
    by_cases he : parse_until_space buf = [] ∨ (parse_until_space buf).head? ≠ some 47
    · rw [if_pos he] at h
      simp at h
    · rw [if_neg he] at h
      cases hsl : sliceFrom buf ((parse_until_space buf).length + 1) with
      | none => simp [hsl] at h
      | some r2 =>
          simp only [hsl] at h
          simp at h
          obtain ⟨-, hr⟩ := h
          exact ⟨buf.take ((parse_until_space buf).length + 1),
            by rw [← hr]; exact sliceFrom_some_decomp _ _ _ hsl⟩
  · rw [if_neg hv] at h
    simp at h

/-- A successful `Request::parse_version` consumed a prefix ending with the
explicit CRLF. -/
theorem parse_version_rq_ok_decomp (buf : List Nat) (v : HTTPVersion)
    (rest : List Nat) (h : Request.parse_version buf = .ok (v, rest)) :
    ∃ c, buf = c ++ 13 :: 10 :: rest := by
  unfold Request.parse_version at h
  cases hm : versionFromBytes (parse_until_crlf buf) with
  | error e => simp [hm] at h
  | panics => simp [hm] at h
  | ok v2 =>
      simp only [hm] at h
      cases hsl : sliceFrom buf ((parse_until_crlf buf).length + 2) with
      | none => simp [hsl] at h
      | some r2 =>
          simp only [hsl] at h
          simp at h
          obtain ⟨-, hr⟩ := h
          have hne := versionFromBytes_ok_ne_nil _ _ hm
          obtain ⟨j, hj, hlen⟩ := until_crlf_eq buf hne
          have hr2 : r2 = buf.drop (j + 2) := by
            have := sliceFrom_some_eq _ _ _ hsl
            rw [hlen] at this
            exact this
          refine ⟨buf.take j, ?_⟩
          rw [← hr, hr2]
          exact findCrlf_decomp _ _ hj

/-- A successful `Response::parse_version` consumed a prefix of the buffer. -/
theorem parse_version_rs_ok_decomp (buf : List Nat) (v : HTTPVersion)
    (rest : List Nat) (h : Response.parse_version buf = .ok (v, rest)) :
    ∃ c, buf = c ++ rest := by
  unfold Response.parse_version at h
  cases hm : versionFromBytes (parse_until_space buf) with
  | error e => simp [hm] at h
  | panics => simp [hm] at h
  | ok v2 =>
      simp only [hm] at h
      cases hsl : sliceFrom buf ((parse_until_space buf).length + 1) with
      | none => simp [hsl] at h
      | some r2 =>
          simp only [hsl] at h
          simp at h
          obtain ⟨-, hr⟩ := h
          exact ⟨buf.take ((parse_until_space buf).length + 1),
            by rw [← hr]; exact sliceFrom_some_decomp _ _ _ hsl⟩

/-- A successful `Response::parse_status` consumed a prefix of the buffer. -/
theorem parse_status_ok_decomp (buf : List Nat) (c : Nat) (rest : List Nat)
    (h : Response.parse_status buf = .ok (c, rest)) : ∃ q, buf = q ++ rest := by
  unfold Response.parse_status at h
  cases hm : statusFromBytes (parse_until_space buf) with
  | none => simp [hm] at h
  | some c2 =>
      simp only [hm] at h
      cases hsl : sliceFrom buf ((parse_until_space buf).length + 1) with
      | none => simp [hsl] at h
      | some r2 =>
          simp only [hsl] at h
          simp at h
          obtain ⟨-, hr⟩ := h
          exact ⟨buf.take ((parse_until_space buf).length + 1),
            by rw [← hr]; exact sliceFrom_some_decomp _ _ _ hsl⟩

/-- After a successful `Response::parse_status_line`, either the consumed
prefix ends with an explicit CRLF, or no CRLF occurred after the status code
and the remainder (two bytes blindly skipped) is CRLF-free. -/
theorem parse_status_line_ok_decomp (buf : List Nat) (v : HTTPVersion)
    (c : Nat) (rest : List Nat)
    (h : Response.parse_status_line buf = .ok (v, c, rest)) :
    (∃ q, buf = q ++ 13 :: 10 :: rest) ∨
    ((∃ q, buf = q ++ rest) ∧ findCrlf rest = none) := by
  unfold Response.parse_status_line at h
  cases hv : Response.parse_version buf with
  | error e => simp [hv] at h
  | panics => simp [hv] at h
  | ok vr =>
      obtain ⟨v2, buf1⟩ := vr
      simp only [hv] at h
      cases hs : Response.parse_status buf1 with
      | error e => simp [hs] at h
      | panics => simp [hs] at h
      | ok sr =>
          obtain ⟨c2, buf2⟩ := sr
          simp only [hs] at h
          cases hsl : sliceFrom buf2 ((parse_until_crlf buf2).length + 2) with
          | none => simp [hsl] at h
          | some r2 =>
              simp only [hsl] at h
              simp at h
              obtain ⟨-, -, hr⟩ := h
              obtain ⟨c1, hc1⟩ := parse_version_rs_ok_decomp buf v2 buf1 hv
              obtain ⟨q2, hq2⟩ := parse_status_ok_decomp buf1 c2 buf2 hs
              rw [hq2] at hc1
              cases hf : findCrlf buf2 with
              | none =>
                  have hu : parse_until_crlf buf2 = [] := by
                    unfold parse_until_crlf
                    rw [hf]
                  rw [hu] at hsl
                  have hr2 : r2 = buf2.drop 2 := by
                    simpa using sliceFrom_some_eq _ _ _ hsl
                  right
                  constructor
                  · refine ⟨c1 ++ (q2 ++ buf2.take 2), ?_⟩
                    rw [← hr, hr2, hc1]
                    conv_lhs => rw [← List.take_append_drop 2 buf2]
                    simp
                  · rw [← hr, hr2]
                    exact findCrlf_none_drop 2 buf2 hf
              | some j =>
                  have hu : parse_until_crlf buf2 = buf2.take j := by
                    unfold parse_until_crlf
                    rw [hf]
                  have hb := findCrlf_bound buf2 j hf
                  have hlen : (parse_until_crlf buf2).length = j := by
                    rw [hu]
                    simp
                    omega
                  have hr2 : r2 = buf2.drop (j + 2) := by
                    have := sliceFrom_some_eq _ _ _ hsl
                    rw [hlen] at this
                    exact this
                  left
                  refine ⟨c1 ++ (q2 ++ buf2.take j), ?_⟩
                  rw [← hr, hr2, hc1]
                  conv_lhs => rw [findCrlf_decomp buf2 j hf]
                  simp

/-- A successful `Request::parse_request_line` consumed a prefix ending with
the version's CRLF. -/
theorem parse_request_line_ok_decomp (buf : List Nat) (p : List Nat)
    (m : HTTPMethod) (v : HTTPVersion) (rest : List Nat)
    (h : Request.parse_request_line buf = .ok (p, m, v, rest)) :
    ∃ c, buf = c ++ 13 :: 10 :: rest := by
  unfold Request.parse_request_line at h
  cases hm : Request.parse_method buf with
  | error e => simp [hm] at h
  | panics => simp [hm] at h
  | ok mr =>
      obtain ⟨m2, buf1⟩ := mr
      simp only [hm] at h
      cases hp : parse_path buf1 with
      | error e => simp [hp] at h
      | panics => simp [hp] at h
      | ok pr =>
          obtain ⟨p2, buf2⟩ := pr
          simp only [hp] at h
          cases hv : Request.parse_version buf2 with
          | error e => simp [hv] at h
          | panics => simp [hv] at h
          | ok vr =>
              obtain ⟨v2, buf3⟩ := vr
              simp only [hv] at h
              simp at h
              obtain ⟨-, -, -, hr⟩ := h
              obtain ⟨c1, hc1⟩ := parse_method_ok_decomp buf m2 buf1 hm
              obtain ⟨c2, hc2⟩ := parse_path_ok_decomp buf1 p2 buf2 hp
              obtain ⟨c3, hc3⟩ := parse_version_rq_ok_decomp buf2 v2 buf3 hv
              refine ⟨c1 ++ (c2 ++ c3), ?_⟩
              rw [← hr, hc1, hc2, hc3]
              simp

/-- C9: a successful parse of a Request or a Response consumed a contiguous
prefix of the buffer that ends immediately after the blank CRLF line (the
prefix ends with the four bytes CR LF CR LF), and the returned tail is
exactly the remaining suffix of the buffer. -/
theorem c9_consumed_prefix_ends_with_blank_line :
    (∀ (buf : List Nat) (r : Request) (tail : List Nat),
      Request.parse buf = .ok (r, tail) →
      ∃ pfx, buf = pfx ++ tail ∧ [13, 10, 13, 10] <:+ pfx) ∧
    (∀ (buf : List Nat) (r : Response) (tail : List Nat),
      Response.parse buf = .ok (r, tail) →
      ∃ pfx, buf = pfx ++ tail ∧ [13, 10, 13, 10] <:+ pfx) := by
  constructor
  · intro buf r tail h
    unfold Request.parse at h
    cases hrl : Request.parse_request_line buf with
    | error e => simp [hrl] at h
    | panics => simp [hrl] at h
    | ok q =>
        obtain ⟨p, m, v, buf1⟩ := q
        simp only [hrl] at h
        cases hh : parse_headers buf1 with
        | error e => simp [hh] at h
        | panics => simp [hh] at h
        | ok hr2 =>
            obtain ⟨hs, buf2⟩ := hr2
            simp only [hh] at h
            simp at h
            obtain ⟨-, htail⟩ := h
            obtain ⟨c, hc⟩ := parse_request_line_ok_decomp buf p m v buf1 hrl
            obtain ⟨pfx, hbuf1, hp⟩ :=
              parseHeadersGo_ok_decomp (buf1.length + 1) buf1 [] hs buf2
                (by exact hh)
            rw [← htail]
            refine ⟨(c ++ 13 :: 10 :: pfx) ++ [13, 10], ?_, ?_⟩
            · rw [hc, hbuf1]
              simp
            · rcases hp with rfl | ⟨t, ht⟩
              · exact ⟨c, by simp⟩
              · exact ⟨c ++ 13 :: 10 :: t, by rw [← ht]; simp⟩
  · intro buf r tail h
    unfold Response.parse at h
    cases hsl : Response.parse_status_line buf with
    | error e => simp [hsl] at h
    | panics => simp [hsl] at h
    | ok q =>
        obtain ⟨v, cd, buf1⟩ := q
        simp only [hsl] at h
        cases hh : parse_headers buf1 with
        | error e => simp [hh] at h
        | panics => simp [hh] at h
        | ok hr2 =>
            obtain ⟨hs, buf2⟩ := hr2
            simp only [hh] at h
            simp at h
            obtain ⟨-, htail⟩ := h
            obtain ⟨pfx, hbuf1, hp⟩ :=
              parseHeadersGo_ok_decomp (buf1.length + 1) buf1 [] hs buf2
                (by exact hh)
            rcases parse_status_line_ok_decomp buf v cd buf1 hsl with
              ⟨c, hc⟩ | ⟨⟨c, hc⟩, hnone⟩
            · rw [← htail]
              refine ⟨(c ++ 13 :: 10 :: pfx) ++ [13, 10], ?_, ?_⟩
              · rw [hc, hbuf1]
                simp
              · rcases hp with rfl | ⟨t, ht⟩
                · exact ⟨c, by simp⟩
                · exact ⟨c ++ 13 :: 10 :: t, by rw [← ht]; simp⟩
            · exact absurd (show parseHeadersGo (buf1.length + 1) buf1 []
                  = .ok (hs, buf2) by exact hh)
                (parseHeadersGo_none_crlf (buf1.length + 1) buf1 [] hs buf2 hnone)

/-- C9 witness: the request "GET / HTTP/1.1(CRLF)(CRLF)X" and the response
"HTTP/1.1 200 OK(CRLF)A: b(CRLF)(CRLF)Y", each parsed successfully, split
into a prefix ending with CRLFCRLF and the one-byte tail. -/
theorem c9_witness :
    (∃ pfx, [71, 69, 84, 32, 47, 32, 72, 84, 84, 80, 47, 49, 46, 49, 13, 10,
        13, 10, 88] = pfx ++ [88] ∧ [13, 10, 13, 10] <:+ pfx) ∧
    (∃ pfx, [72, 84, 84, 80, 47, 49, 46, 49, 32, 50, 48, 48, 32, 79, 75, 13,
        10, 65, 58, 32, 98, 13, 10, 13, 10, 89] = pfx ++ [89] ∧
      [13, 10, 13, 10] <:+ pfx) :=
  ⟨c9_consumed_prefix_ends_with_blank_line.1
      [71, 69, 84, 32, 47, 32, 72, 84, 84, 80, 47, 49, 46, 49, 13, 10, 13, 10, 88]
      ⟨[47], .GET, [], .HTTP1_1⟩ [88] (by decide),
   c9_consumed_prefix_ends_with_blank_line.2
      [72, 84, 84, 80, 47, 49, 46, 49, 32, 50, 48, 48, 32, 79, 75, 13, 10, 65,
        58, 32, 98, 13, 10, 13, 10, 89]
      ⟨200, .HTTP1_1, [([65], [98])]⟩ [89] (by decide)⟩

/-! ## C6: serialize-then-parse round trip -/

/-- The first space after a space-free block is found at its length. -/
theorem findSpace_append (a r : List Nat) (h : 32 ∉ a) :
    findSpace (a ++ 32 :: r) = some a.length := by
  induction a with
  | nil => simp [findSpace]
  | cons x a ih =>
      have hx : x ≠ 32 := by
        intro hc
        exact h (by simp [hc])
      have ha : 32 ∉ a := fun hc => h (by simp [hc])
      simp [findSpace, hx, ih ha]

/-- Scanning a space-free block followed by a space yields the block. -/
theorem until_space_append (a r : List Nat) (h : 32 ∉ a) :
    parse_until_space (a ++ 32 :: r) = a := by
  unfold parse_until_space
  rw [findSpace_append a r h]
  exact List.take_left a (32 :: r)

/-- Dropping the block and the space delimiter leaves the tail. -/
theorem drop_block_space (a r : List Nat) :
    (a ++ 32 :: r).drop (a.length + 1) = r := by
  have : a ++ 32 :: r = (a ++ [32]) ++ r := by simp
  rw [this, show a.length + 1 = (a ++ [32]).length by simp]
  exact List.drop_left _ _

/-- A block without LF bytes contains no CRLF pair. -/
theorem findCrlf_none_of_no_lf (a : List Nat) (h : 10 ∉ a) :
    findCrlf a = none := by
  induction a with
  | nil => rfl
  | cons x a ih =>
      cases a with
      | nil => rfl
      | cons y a2 =>
          have hy : y ≠ 10 := by
            intro hc
            exact h (by simp [hc])
          have ha : 10 ∉ y :: a2 := fun hc => h (by simp at hc ⊢; tauto)
          simp [findCrlf, fun hx => hy, ih ha]
          intro h13
          exact hy

/-- The first CRLF after a CRLF-free block is found at its length. -/
theorem findCrlf_append (a r : List Nat) (h : findCrlf a = none) :
    findCrlf (a ++ 13 :: 10 :: r) = some a.length := by
  induction a with
  | nil => simp [findCrlf]
  | cons x a ih =>
      cases a with
      | nil =>
          simp [findCrlf]
      | cons y a2 =>
          by_cases hxy : x = 13 ∧ y = 10
          · simp [findCrlf, hxy] at h
          · simp [findCrlf, hxy] at h
            have := ih h
            simp only [List.cons_append] at this ⊢
            simp [findCrlf, hxy, this]

/-- Scanning a CRLF-free block followed by CRLF yields the block. -/
theorem until_crlf_append (a r : List Nat) (h : findCrlf a = none) :
    parse_until_crlf (a ++ 13 :: 10 :: r) = a := by
  unfold parse_until_crlf
  rw [findCrlf_append a r h]
  exact List.take_left a (13 :: 10 :: r)

/-- Dropping the block and its CRLF leaves the tail. -/
theorem drop_block_crlf (a r : List Nat) :
    (a ++ 13 :: 10 :: r).drop (a.length + 2) = r := by
  have : a ++ 13 :: 10 :: r = (a ++ [13, 10]) ++ r := by simp
  rw [this, show a.length + 2 = (a ++ [13, 10]).length by simp]
  exact List.drop_left _ _

/-- A colon-free block has no last colon. -/
theorem lastColon_none (b : List Nat) (h : 58 ∉ b) : lastColon b = none := by
  induction b with
  | nil => rfl
  | cons x b ih =>
      have hx : x ≠ 58 := by
        intro hc
        exact h (by simp [hc])
      have hb : 58 ∉ b := fun hc => h (by simp [hc])
      simp [lastColon, ih hb, hx]

/-- The last colon before a colon-free suffix is the explicit one. -/
theorem lastColon_append (a b : List Nat) (h : 58 ∉ b) :
    lastColon (a ++ 58 :: b) = some a.length := by
  induction a with
  | nil => simp [lastColon, lastColon_none b h]
  | cons x a ih =>
      simp only [List.cons_append, lastColon, List.append_eq, ih]
      simp

/-- A leading ASCII space does not affect UTF-8 validity of the rest. -/
theorem utf8Valid_cons_space (v : List Nat) :
    utf8Valid (32 :: v) = utf8Valid v := by
  unfold utf8Valid
  simp only [List.length_cons, utf8ValidF]
  rw [show utf8CharLen (32 :: v) = some 1 from rfl]
  simp

/-- Trimming ignores one leading space. -/
theorem rustTrim_cons_space (v : List Nat) : rustTrim (32 :: v) = rustTrim v := by
  unfold rustTrim
  have h1 : trimLeftF (32 :: v).length (32 :: v) = trimLeftF v.length v := by
    simp only [List.length_cons, trimLeftF]
    rw [show wsLen (32 :: v) = some 1 from rfl]
    simp
  rw [h1]

/-- Inserting a fresh key appends the binding. -/
theorem hmInsert_fresh (m : Headers) (k v : List Nat)
    (h : k ∉ m.map Prod.fst) : hmInsert m k v = m ++ [(k, v)] := by
  have hno : ¬ (m.any (fun p => p.1 = k) = true) := by
    simp only [List.any_eq_true]
    rintro ⟨p, hp, hpk⟩
    simp at hpk
    exact h (List.mem_map.mpr ⟨p, hp, hpk⟩)
  unfold hmInsert
  rw [if_neg hno]

/-- Body of `parse_header` on a nonempty buffer. -/
theorem parse_header_eq (buf : List Nat) (hne : buf ≠ []) :
    parse_header buf =
      (match findCrlf buf with
      | none => .error .UnterminatedHeader
      | some j =>
        match lastColon (buf.take j) with
        | none => .error .UnterminatedHeader
        | some s =>
          match sliceRange buf 0 s, sliceRange buf (s + 1) j,
              sliceFrom buf (j + 2) with
          | some key, some value, some rest =>
              if utf8Valid key then
                if utf8Valid value then .ok (key, rustTrim value, rest)
                else .error .InvalidHeader
              else .error .InvalidHeader
          | _, _, _ => .panics) := by
  cases buf with
  | nil => exact absurd rfl hne
  | cons b0 bs => rfl

/-- Well-formedness of a header pair as needed for the round trip: names
and values are valid UTF-8 and free of CR and LF, names carry no colon (the
spec's data-model invariant), and values carry no leading or trailing
whitespace.  The additional constraint that VALUES carry no colon is not a
spec invariant; it is the amendment forced by the code: `parse_header`
splits a line at the last colon before the CRLF, so a serialized value
containing a colon comes back with its pre-colon part glued onto the key
(see the counterexample on the round-trip claim). -/
def wfHeaderPair (p : List Nat × List Nat) : Prop :=
  utf8Valid p.1 = true ∧ utf8Valid p.2 = true ∧ 13 ∉ p.1 ∧ 10 ∉ p.1 ∧
  58 ∉ p.1 ∧ 13 ∉ p.2 ∧ 10 ∉ p.2 ∧ 58 ∉ p.2 ∧ rustTrim p.2 = p.2

instance (p : List Nat × List Nat) : Decidable (wfHeaderPair p) := by
  unfold wfHeaderPair
  infer_instance

/-- Parsing one serialized header line `key: value CRLF rest` recovers the
pair and the rest. -/
theorem parse_header_line (k v rest : List Nat) (hw : wfHeaderPair (k, v)) :
    parse_header (k ++ 58 :: 32 :: v ++ 13 :: 10 :: rest) = .ok (k, v, rest) := by
  obtain ⟨hku, hvu, hk13, hk10, hk58, hv13, hv10, hv58, hvt⟩ := hw
  have hku2 : utf8Valid k = true := hku
  have hvu2 : utf8Valid v = true := hvu
  have hv102 : 10 ∉ v := hv10
  have hv582 : 58 ∉ v := hv58
  have hvt2 : rustTrim v = v := hvt
  have hk102 : 10 ∉ k := hk10
  have hA10 : 10 ∉ k ++ 58 :: 32 :: v := by
    simp
    exact ⟨fun hc => hk102 hc, fun hc => hv102 hc⟩
  have hAnone : findCrlf (k ++ 58 :: 32 :: v) = none :=
    findCrlf_none_of_no_lf _ hA10
  have hbuf : k ++ 58 :: 32 :: v ++ 13 :: 10 :: rest
      = (k ++ 58 :: 32 :: v) ++ 13 :: 10 :: rest := by simp
  have hfind : findCrlf (k ++ 58 :: 32 :: v ++ 13 :: 10 :: rest)
      = some (k ++ 58 :: 32 :: v).length := by
    rw [hbuf]
    exact findCrlf_append _ _ hAnone
  have htake : (k ++ 58 :: 32 :: v ++ 13 :: 10 :: rest).take
      (k ++ 58 :: 32 :: v).length = k ++ 58 :: 32 :: v := by
    rw [hbuf]
    exact List.take_left _ _
  have hcol : lastColon ((k ++ 58 :: 32 :: v ++ 13 :: 10 :: rest).take
      (k ++ 58 :: 32 :: v).length) = some k.length := by
    rw [htake]
    refine lastColon_append k (32 :: v) ?_
    simp
    exact fun hc => hv582 hc
  have hlen : (k ++ 58 :: 32 :: v).length = k.length + v.length + 2 := by
    simp
    omega
  have hbuflen : (k ++ 58 :: 32 :: v ++ 13 :: 10 :: rest).length
      = k.length + v.length + 4 + rest.length := by
    simp
    omega
  have h1 : sliceRange (k ++ 58 :: 32 :: v ++ 13 :: 10 :: rest) 0 k.length
      = some k := by
    unfold sliceRange
    rw [if_pos (by omega)]
    congr 1
    rw [List.drop_zero, List.take_append_of_le_length (by simp),
      List.take_left]
  have h2 : sliceRange (k ++ 58 :: 32 :: v ++ 13 :: 10 :: rest) (k.length + 1)
      (k ++ 58 :: 32 :: v).length = some (32 :: v) := by
    unfold sliceRange
    rw [if_pos (by omega)]
    congr 1
    rw [htake]
    have hsplit : k ++ 58 :: 32 :: v = (k ++ [58]) ++ 32 :: v := by simp
    rw [hsplit, show k.length + 1 = (k ++ [58]).length by simp]
    exact List.drop_left _ _
  have h3 : sliceFrom (k ++ 58 :: 32 :: v ++ 13 :: 10 :: rest)
      ((k ++ 58 :: 32 :: v).length + 2) = some rest := by
    unfold sliceFrom
    rw [if_pos (by omega)]
    rw [drop_block_crlf]
  have hne : k ++ 58 :: 32 :: v ++ 13 :: 10 :: rest ≠ [] := by
    cases k <;> simp
  rw [parse_header_eq _ hne]
  simp only [hfind, hcol, h1, h2, h3]
  rw [if_pos hku2]
  rw [if_pos (by rw [utf8Valid_cons_space]; exact hvu2)]
  rw [rustTrim_cons_space, hvt2]

/-- A serialized header block followed by the blank line parses back into
exactly the original pairs, appended to the accumulator, with the bytes
after the blank line as tail.  The fuel need only exceed the number of
header lines. -/
theorem parse_headers_lines (hs : Headers) :
    ∀ (fuel : Nat) (acc : Headers) (extra : List Nat),
    hs.length < fuel →
    (∀ p ∈ hs, wfHeaderPair p) →
    ((acc ++ hs).map Prod.fst).Nodup →
    parseHeadersGo fuel (headerLines hs ++ 13 :: 10 :: extra) acc
      = .ok (acc ++ hs, extra) := by
  induction hs with
  | nil =>
      intro fuel acc extra hf _ _
      cases fuel with
      | zero => omega
      | succ f =>
          have hbuf : headerLines [] ++ 13 :: 10 :: extra = 13 :: 10 :: extra := by
            simp [headerLines]
          rw [hbuf]
          unfold parseHeadersGo
          rw [if_neg (by simp)]
          rw [if_neg (by simp)]
          have hsl : sliceFrom (13 :: 10 :: extra) 2 = some extra := by
            unfold sliceFrom
            rw [if_pos (by simp)]
            simp
          rw [hsl]
          simp
  | cons p hs ih =>
      intro fuel acc extra hf hwf hnd
      obtain ⟨k, v⟩ := p
      cases fuel with
      | zero => omega
      | succ f =>
          have hwp : wfHeaderPair (k, v) := hwf _ (by simp)
          have hline : headerLines ((k, v) :: hs) ++ 13 :: 10 :: extra
              = (k ++ 58 :: 32 :: v)
                ++ 13 :: 10 :: (headerLines hs ++ 13 :: 10 :: extra) := by
            simp [headerLines]
          rw [hline]
          have hg2 : (k ++ 58 :: 32 :: v).take (2 : Nat) ≠ [] →
              True := fun _ => trivial
          have hguard : 2 ≤ ((k ++ 58 :: 32 :: v)
              ++ 13 :: 10 :: (headerLines hs ++ 13 :: 10 :: extra)).length ∧
              ((k ++ 58 :: 32 :: v)
              ++ 13 :: 10 :: (headerLines hs ++ 13 :: 10 :: extra)).take 2
                ≠ [13, 10] := by
            constructor
            · simp
              omega
            · cases k with
              | nil => simp
              | cons k0 ks =>
                  cases ks with
                  | nil => simp
                  | cons k1 ks2 =>
                      have h10 : k1 ≠ 10 := by
                        intro hc
                        exact hwp.2.2.2.1 (by simp [hc])
                      simp [h10]
          unfold parseHeadersGo
          rw [if_pos hguard]
          have hph := parse_header_line k v
            (headerLines hs ++ 13 :: 10 :: extra) hwp
          rw [show k ++ 58 :: 32 :: v ++ 13 :: 10 ::
              (headerLines hs ++ 13 :: 10 :: extra)
              = (k ++ 58 :: 32 :: v)
                ++ 13 :: 10 :: (headerLines hs ++ 13 :: 10 :: extra)
            from rfl] at hph
          simp only [hph]
          have hfresh : k ∉ acc.map Prod.fst := by
            have hnd2 := hnd
            rw [List.map_append] at hnd2
            rcases List.nodup_append.mp hnd2 with ⟨-, -, hdisj⟩
            intro hmem
            exact hdisj hmem (by simp)
          rw [hmInsert_fresh acc k v hfresh]
          have hnd3 : (((acc ++ [(k, v)]) ++ hs).map Prod.fst).Nodup := by
            have heq : (acc ++ [(k, v)]) ++ hs = acc ++ (k, v) :: hs := by simp
            rw [heq]
            exact hnd
          have := ih f (acc ++ [(k, v)]) extra (by simp at hf ⊢; omega)
            (fun q hq => hwf q (by simp [hq])) hnd3
          rw [this]
          have heq : (acc ++ [(k, v)]) ++ hs = acc ++ (k, v) :: hs := by simp
          rw [heq]

/-- Parsing the serialized method token and the following space recovers the
method. -/
theorem parse_method_bytes (m : HTTPMethod) (R : List Nat) :
    Request.parse_method (methodBytes m ++ 32 :: R) = .ok (m, R) := by
  have hns : 32 ∉ methodBytes m := by cases m <;> decide
  have hus : parse_until_space (methodBytes m ++ 32 :: R) = methodBytes m :=
    until_space_append _ _ hns
  have hmb : methodFromBytes (methodBytes m) = .ok m := by cases m <;> rfl
  have hsl : sliceFrom (methodBytes m ++ 32 :: R)
      ((methodBytes m).length + 1) = some R := by
    unfold sliceFrom
    rw [if_pos (by simp)]
    rw [drop_block_space]
  unfold Request.parse_method
  rw [hus]
  simp only [hmb, hsl]

/-- Parsing a serialized well-formed path and the following space recovers
the path. -/
theorem parse_path_bytes (p R : List Nat) (hne : p ≠ [])
    (hh : p.head? = some 47) (hsp : 32 ∉ p) (hu : utf8Valid p = true) :
    parse_path (p ++ 32 :: R) = .ok (p, R) := by
  have hus : parse_until_space (p ++ 32 :: R) = p := until_space_append _ _ hsp
  have hsl : sliceFrom (p ++ 32 :: R) (p.length + 1) = some R := by
    unfold sliceFrom
    rw [if_pos (by simp)]
    rw [drop_block_space]
  unfold parse_path
  rw [hus]
  rw [if_pos hu]
  rw [if_neg (by simp [hne, hh])]
  simp only [hsl]

/-- Parsing the serialized version token and the following CRLF recovers the
version. -/
theorem parse_version_bytes (v : HTTPVersion) (R : List Nat) :
    Request.parse_version (versionBytes v ++ 13 :: 10 :: R) = .ok (v, R) := by
  have h10 : 10 ∉ versionBytes v := by cases v <;> decide
  have hcn : findCrlf (versionBytes v) = none := findCrlf_none_of_no_lf _ h10
  have huc : parse_until_crlf (versionBytes v ++ 13 :: 10 :: R)
      = versionBytes v := until_crlf_append _ _ hcn
  have hvb : versionFromBytes (versionBytes v) = .ok v := by cases v <;> rfl
  have hsl : sliceFrom (versionBytes v ++ 13 :: 10 :: R)
      ((versionBytes v).length + 2) = some R := by
    unfold sliceFrom
    rw [if_pos (by simp)]
    rw [drop_block_crlf]
  unfold Request.parse_version
  rw [huc]
  simp only [hvb, hsl]

/-- There are at least as many bytes in the serialized header block as there
are header pairs. -/
theorem headerLines_length (hs : Headers) : hs.length ≤ (headerLines hs).length := by
  induction hs with
  | nil => simp [headerLines]
  | cons p hs ih =>
      have : headerLines (p :: hs)
          = (p.1 ++ 58 :: 32 :: p.2) ++ 13 :: 10 :: headerLines hs := by
        simp [headerLines]
      rw [this]
      simp
      omega

/-- Well-formedness of a Request, following the spec's data model: the path
is nonempty, begins with '/', contains no space and is valid UTF-8; every
header pair satisfies the header invariants; keys are distinct (a property
of the `HashMap`). -/
def wellFormedRequest (r : Request) : Prop :=
  r.path ≠ [] ∧ r.path.head? = some 47 ∧ 32 ∉ r.path ∧
  utf8Valid r.path = true ∧ (∀ p ∈ r.headers, wfHeaderPair p) ∧
  (r.headers.map Prod.fst).Nodup

instance (r : Request) : Decidable (wellFormedRequest r) := by
  unfold wellFormedRequest
  infer_instance

/-- C6 counterexample: the round trip fails, as stated, on a well-formed
request whose header value contains a colon.  For the request
"GET / HTTP/1.1" with header "Host: a:b" (name "Host" colon-free and the
value "a:b" an ordinary host:port shape), `parse_header` splits the
serialized line "Host: a:b" at its LAST colon, so parsing the serialized
bytes yields the header key "Host: a" with value "b": the parsed header map
holds no key that is case-insensitively equal to "Host", refuting the
claimed equality of the header maps under case-insensitive key comparison
and value trimming. -/
theorem c6_counterexample_colon_in_value :
    Request.parse (Request.into_bytes
        ⟨[47], .GET, [([72, 111, 115, 116], [97, 58, 98])], .HTTP1_1⟩ ++ [9])
      = .ok (⟨[47], .GET, [([72, 111, 115, 116, 58, 32, 97], [98])],
          .HTTP1_1⟩, [9]) ∧
    ([([72, 111, 115, 116, 58, 32, 97], [98])].all
      (fun p => asciiLower p.1 ≠ asciiLower [72, 111, 115, 116])) = true := by
  refine ⟨by decide, by decide⟩

/-- C6, amended: serialize-then-parse round trip, additionally requiring
header values to be colon-free (forced by the counterexample above: the
parser splits each header line at the last colon before its CRLF, not the
first).  For every such well-formed request and every byte suffix, parsing
`into_bytes r ++ extra` succeeds and returns the request unchanged (same
method, path, version, and the very same header map — which in particular
is equal under case-insensitive key comparison and value trimming) together
with the tail `extra`. -/
theorem c6_serialize_parse_roundtrip (r : Request) (extra : List Nat)
    (h : wellFormedRequest r) :
    Request.parse (r.into_bytes ++ extra) = .ok (r, extra) := by
  obtain ⟨path, m, hs, v⟩ := r
  obtain ⟨hpne, hph, hps, hpu, hhw, hhn⟩ := h
  have hshape : Request.into_bytes ⟨path, m, hs, v⟩ ++ extra
      = methodBytes m ++ 32 :: (path ++ 32 :: (versionBytes v
        ++ 13 :: 10 :: (headerLines hs ++ 13 :: 10 :: extra))) := by
    simp [Request.into_bytes]
  rw [hshape]
  have h1 := parse_method_bytes m (path ++ 32 :: (versionBytes v
    ++ 13 :: 10 :: (headerLines hs ++ 13 :: 10 :: extra)))
  have h2 := parse_path_bytes path (versionBytes v
    ++ 13 :: 10 :: (headerLines hs ++ 13 :: 10 :: extra)) hpne hph hps hpu
  have h3 := parse_version_bytes v (headerLines hs ++ 13 :: 10 :: extra)
  have h4 : parse_headers (headerLines hs ++ 13 :: 10 :: extra)
      = .ok (hs, extra) := by
    unfold parse_headers
    have hlen : hs.length < (headerLines hs ++ 13 :: 10 :: extra).length + 1 := by
      have := headerLines_length hs
      simp
      omega
    have := parse_headers_lines hs
      ((headerLines hs ++ 13 :: 10 :: extra).length + 1) [] extra hlen hhw
      (by simpa using hhn)
    simpa using this
  unfold Request.parse Request.parse_request_line
  simp only [h1, h2, h3, h4]

/-- C6 witness: the round trip applied to the concrete request
"GET /a HTTP/1.1" with header "Host: x" and the extra byte 7. -/
theorem c6_witness :
    Request.parse (Request.into_bytes
        ⟨[47, 97], .GET, [([72, 111, 115, 116], [120])], .HTTP1_1⟩ ++ [7])
      = .ok (⟨[47, 97], .GET, [([72, 111, 115, 116], [120])], .HTTP1_1⟩, [7]) :=
  c6_serialize_parse_roundtrip
    ⟨[47, 97], .GET, [([72, 111, 115, 116], [120])], .HTTP1_1⟩ [7] (by decide)
